import Mathlib

/-!
Shallow embedding of src/scrtt/plotting/sankey.py.

Numeric model: IEEE doubles are idealized as exact rationals extended with
NaN and signed infinities (type F below); rounding is not modelled, but the
special-value propagation of numpy (0/0 = NaN, x/0 = ±inf, NaN-poisoning of
sums, nan-skipping of pandas sums and of numpy nansum) is modelled exactly.
Entropy values involve natural logarithms and therefore live in a second
type RE whose finite payload is a real number.
-/

/-- Float-like scalar: NaN, signed infinity, or an exact finite value. -/
inductive F where
  | nan : F
  | inf : Bool → F
  | q : ℚ → F
deriving DecidableEq, Repr

namespace F

def add : F → F → F
  | nan, _ => nan
  | _, nan => nan
  | inf s, inf t => if s = t then inf s else nan
  | inf s, q _ => inf s
  | q _, inf s => inf s
  | q a, q b => q (a + b)

def mul : F → F → F
  | nan, _ => nan
  | _, nan => nan
  | inf s, inf t => inf (s = t)
  | inf s, q a => if a = 0 then nan else if 0 < a then inf s else inf (!s)
  | q a, inf s => if a = 0 then nan else if 0 < a then inf s else inf (!s)
  | q a, q b => q (a * b)

def div : F → F → F
  | nan, _ => nan
  | _, nan => nan
  | inf _, inf _ => nan
  | inf s, q a => if 0 ≤ a then inf s else inf (!s)
  | q _, inf _ => q 0
  | q a, q b => if b = 0 then (if a = 0 then nan else inf (0 < a)) else q (a / b)

def isNan : F → Bool
  | nan => true
  | _ => false

/-- Finite payload of a value (0 for NaN and infinities); used only in proofs. -/
def toQ : F → ℚ
  | q a => a
  | _ => 0

end F

/-- numpy-style sum of a list of values (NaN poisons the result). -/
def npSum (l : List F) : F := l.foldl F.add (F.q 0)

/-- pandas-style sum (skipna=True): NaN entries are dropped before summing. -/
def pdSum (l : List F) : F := npSum (l.filter (fun v => !v.isNan))

/-- Entropy-layer scalar: NaN, signed infinity, or a real value. -/
inductive RE where
  | nan : RE
  | inf : Bool → RE
  | r : ℝ → RE

namespace RE

noncomputable def add : RE → RE → RE
  | nan, _ => nan
  | _, nan => nan
  | inf s, inf t => if s = t then inf s else nan
  | inf s, r _ => inf s
  | r _, inf s => inf s
  | r a, r b => r (a + b)

def neg : RE → RE
  | nan => nan
  | inf s => inf (!s)
  | r a => r (-a)

def isNan : RE → Bool
  | nan => true
  | _ => false

end RE

/-- numpy-style sum at the entropy layer. -/
noncomputable def reSum (l : List RE) : RE := l.foldl RE.add (RE.r 0)

/-- np.nansum at the entropy layer: NaN terms are treated as zero. -/
noncomputable def reNanSum (l : List RE) : RE := reSum (l.filter (fun e => !e.isNan))

/-- The map v ↦ v * ln v under numpy semantics: ln 0 = -inf and 0 * (-inf) = NaN,
ln of a negative number is NaN, so the result is NaN unless v > 0 (or v = +inf). -/
noncomputable def xlogx : F → RE
  | F.nan => RE.nan
  | F.inf s => if s then RE.inf true else RE.nan
  | F.q a => if a = 0 then RE.nan else if a < 0 then RE.nan else RE.r ((a : ℝ) * Real.log (a : ℝ))

/-- Product of an F weight with an RE entropy (numpy broadcasting semantics). -/
noncomputable def mulFRE : F → RE → RE
  | F.nan, _ => RE.nan
  | _, RE.nan => RE.nan
  | F.inf s, RE.inf t => RE.inf (s = t)
  | F.inf s, RE.r a => if a = 0 then RE.nan else if 0 < a then RE.inf s else RE.inf (!s)
  | F.q a, RE.inf s => if a = 0 then RE.nan else if 0 < a then RE.inf s else RE.inf (!s)
  | F.q a, RE.r b => RE.r ((a : ℝ) * b)

/-- Embeds _calculate_entropy (sankey.py lines 13-15): x /= x.sum() with a
pandas (skipna) sum, then -np.sum(x * np.log(x)) with a numpy (poisoning) sum. -/
noncomputable def calculate_entropy (x : List F) : RE :=
  let s := pdSum x
  RE.neg (reSum ((x.map (fun v => F.div v s)).map xlogx))

/-- A matrix: rows of F values (rows = observations or source groups). -/
abbrev Mat := List (List F)

/-- Sum of all entries (numpy .values.sum() on a DataFrame / .sum() on an array). -/
def matSum (m : Mat) : F := npSum (m.map npSum)

/-- Divide every entry by a scalar (numpy broadcasting). -/
def matDiv (m : Mat) (s : F) : Mat := m.map (fun row => row.map (fun v => F.div v s))

/-- A.T @ B for A : n0 x gA and B : n1 x hB: defined only when n0 = n1
(otherwise numpy matmul raises ValueError); entry (i, j) is sum over k of
A[k][i] * B[k][j]. -/
def gramT (A B : Mat) : Option Mat :=
  if A.length = B.length then
    let gA := (A.headD []).length
    let hB := (B.headD []).length
    some ((List.range gA).map (fun i => (List.range hB).map (fun j =>
      npSum ((A.zip B).map (fun p => F.mul (p.1.getD i (F.q 0)) (p.2.getD j (F.q 0)))))))
  else
    none

/-- True when m has exactly the given rectangular shape (pandas DataFrame
construction with explicit index and columns requires it). -/
def rectangular (m : Mat) (rows cols : Nat) : Bool :=
  m.length == rows && m.all (fun r => r.length == cols)

/-- One row of a flow table: (source, target, outflow, inflow). -/
structure FlowRow where
  source : String
  target : String
  outflow : F
  inflow : F
deriving DecidableEq, Repr

abbrev FlowTable := List FlowRow

/-- Modelled from the spec: scrtt.utils.window (imported at sankey.py line 9,
not part of src/) — the sliding pairs of consecutive elements, producing the
ordered sequence of day pairs of a hop path ("Day Pair: an ordered pair of
adjacent time points"; "the ordered sequence of day pairs whose time points
fall within the span"). -/
def window (l : List ℚ) : List (ℚ × ℚ) := l.zip l.tail

/-- External transport model (contract of section 6 of the design): time
points, the per-observation time labels of its metadata table, and the
push_forward operation (always called with normalize=True; the Nat argument
is norm_axis). -/
structure OTModel where
  timepoints : List ℚ
  obs_times : List ℚ
  push : Mat → ℚ → ℚ → Nat → Mat

/-- The Sankey aggregator state (sankey.py lines 28-57): the transport model,
the float-coerced membership matrix with string-coerced column labels, the
caching flag, and the cache itself (None when caching is disabled).
Rendering-only fields (color_dict, palette, group_order, endpoint_width) are
omitted: no claim mentions them. -/
structure SankeyState where
  model : OTModel
  subsets : Mat
  columns : List String
  cache_flow_dfs : Bool
  flow_dfs : Option (List ((ℚ × ℚ) × FlowTable))

/-- Embeds Sankey.__init__ (lines 28-57) for membership-matrix input: values
kept as given (astype(float)), column labels coerced to strings via the
ambient str function, cache initialized to an empty dict or to None. There is
no collision check on the coerced labels. -/
def sankey_init {α : Type} (model : OTModel) (labels : List α) (pyStr : α → String)
    (mat : Mat) (cache_flow_dfs : Bool) : SankeyState :=
  { model := model
    subsets := mat
    columns := labels.map pyStr
    cache_flow_dfs := cache_flow_dfs
    flow_dfs := if cache_flow_dfs then some [] else none }

/-- Rows of the membership matrix whose observation time equals t
(meta-index selection at sankey.py lines 160-163). -/
def selectRows (times : List ℚ) (m : Mat) (t : ℚ) : Mat :=
  ((times.zip m).filter (fun p => p.1 = t)).map (fun p => p.2)

/-- The renormalized endpoint distributions s0, s1 (lines 160-165):
each selected block is divided by the sum of all of its entries. -/
def endpointDists (s : SankeyState) (t0 t1 : ℚ) : Mat × Mat :=
  let s0 := selectRows s.model.obs_times s.subsets t0
  let s1 := selectRows s.model.obs_times s.subsets t1
  (matDiv s0 (matSum s0), matDiv s1 (matSum s1))

/-- The hop path (lines 166-167): day pairs over the time points inside the
span. -/
def dayPairsIn (model : OTModel) (t0 t1 : ℚ) : List (ℚ × ℚ) :=
  window (model.timepoints.filter (fun x => t0 ≤ x && x ≤ t1))

/-- The raw (unnormalized) outflow matrix (lines 168-177): fold the forward
push (norm_axis=1) over the hop path starting from s0, then contract with s1. -/
def rawOut (s : SankeyState) (t0 t1 : ℚ) : Option Mat :=
  let d := endpointDists s t0 t1
  let st := (dayPairsIn s.model t0 t1).foldl
    (fun m p => s.model.push m p.1 p.2 1) d.1
  gramT st d.2

/-- The raw (unnormalized) inflow matrix (lines 169-179): same with the
backward push (norm_axis=0). -/
def rawIn (s : SankeyState) (t0 t1 : ℚ) : Option Mat :=
  let d := endpointDists s t0 t1
  let st := (dayPairsIn s.model t0 t1).foldl
    (fun m p => s.model.push m p.1 p.2 0) d.1
  gramT st d.2

/-- _format_flow (lines 274-286): a DataFrame with index = source labels and
columns = target labels, melted into long form. Melt is column-major: all
rows of the first target column, then of the second, and so on. -/
def formatFlow (m : Mat) (srcs tgts : List String) : List (String × String × F) :=
  ((tgts.enum.map (fun tj => srcs.enum.map (fun si =>
    (si.2, tj.2, (m.getD si.1 []).getD tj.1 (F.q 0))))) : List (List (String × String × F))).flatten

/-- First value in a long-form table carrying the given (source, target) key. -/
def lookupFlow (l : List (String × String × F)) (a b : String) : Option F :=
  (l.find? (fun r => r.1 == a && r.2.1 == b)).map (fun r => r.2.2)

/-- pd.merge(outflow, inflow, on=['source','target']) (line 183), inner join;
with the unique identical key sequences produced by _format_flow this pairs
each outflow row with the inflow value of the same key. -/
def mergeFlows (L R : List (String × String × F)) : FlowTable :=
  L.filterMap (fun a => (lookupFlow R a.1 a.2.1).map
    (fun w => { source := a.1, target := a.2.1, outflow := a.2.2, inflow := w }))

/-- Python dict assignment self.flow_dfs[(t0, t1)] = flow_df: overwrite in
place when the key exists, append otherwise. -/
def cacheInsert (c : List ((ℚ × ℚ) × FlowTable)) (k : ℚ × ℚ) (v : FlowTable) :
    List ((ℚ × ℚ) × FlowTable) :=
  if c.any (fun p => p.1 == k) then c.map (fun p => if p.1 == k then (k, v) else p)
  else c ++ [(k, v)]

/-- The state after the optional cache write of lines 185-186. -/
def updCache (s : SankeyState) (t0 t1 : ℚ) (tbl : FlowTable) : SankeyState :=
  if s.cache_flow_dfs then
    { s with flow_dfs := s.flow_dfs.map (fun c => cacheInsert c (t0, t1) tbl) }
  else s

/-- The one error kind raised along calculate_flows: numpy matmul dimension
mismatch or pandas DataFrame shape mismatch (both ValueError). -/
inductive FlowError where
  | shapeMismatch : FlowError
deriving DecidableEq, Repr

/-- The flow table assembled from the raw outflow and inflow matrices
(lines 177-183): renormalize each to total 1, melt both into long form over
the group labels, and merge on (source, target). -/
def flowMerge (s : SankeyState) (MO MI : Mat) : FlowTable :=
  mergeFlows (formatFlow (matDiv MO (matSum MO)) s.columns s.columns)
             (formatFlow (matDiv MI (matSum MI)) s.columns s.columns)

/-- Embeds calculate_flows (lines 152-187): select and renormalize the
endpoint blocks, fold the two push-forward traversals over the hop path,
contract with s1, renormalize each matrix to total 1, melt both into long
form, merge on (source, target), and cache the result when caching is on.
Returns the flow table and the updated aggregator state. -/
def calculate_flows (s : SankeyState) (t0 t1 : ℚ) :
    Except FlowError (FlowTable × SankeyState) :=
  match rawOut s t0 t1, rawIn s t0 t1 with
  | some MO, some MI =>
    if rectangular (matDiv MO (matSum MO)) s.columns.length s.columns.length
        && rectangular (matDiv MI (matSum MI)) s.columns.length s.columns.length then
      .ok (flowMerge s MO MI, updCache s t0 t1 (flowMerge s MO MI))
    else .error .shapeMismatch
  | _, _ => .error .shapeMismatch

/-- The zero-row filter applied only by plot_sankey (lines 124-126) before
rendering: drop rows whose outflow or inflow equals 0 (float ==, so NaN
rows are kept). -/
def plotFilteredRows (tbl : FlowTable) : FlowTable :=
  tbl.filter (fun r => !(r.outflow == F.q 0 || r.inflow == F.q 0))

/-- The table plot_sankey hands to the renderer (lines 120-126): the cached
table when present, else a fresh computation; then the zero-row filter. -/
def plot_sankey_rows (s : SankeyState) (t0 t1 : ℚ) : Except FlowError FlowTable :=
  match (if s.cache_flow_dfs then (s.flow_dfs.getD []).lookup (t0, t1) else none) with
  | some tbl => .ok (plotFilteredRows tbl)
  | none => (calculate_flows s t0 t1).map (fun p => plotFilteredRows p.1)

/-- Insert into a ≤-sorted list of strings. -/
def insertStr (x : String) : List String → List String
  | [] => [x]
  | y :: ys => if x ≤ y then x :: y :: ys else y :: insertStr x ys

/-- Sorted list of the distinct labels of a column, in the order a pandas
groupby enumerates its group keys. -/
def groupKeys (l : List String) : List String :=
  l.eraseDups.foldr insertStr []

/-- Per-source pandas groupby sums of the outflow column
(src_sizes, sankey.py line 257). -/
def srcSizes (tbl : FlowTable) : List F :=
  (groupKeys (tbl.map (fun r => r.source))).map
    (fun g => pdSum ((tbl.filter (fun r => r.source == g)).map (fun r => r.outflow)))

/-- Per-target pandas groupby sums of the inflow column
(tgt_sizes, sankey.py line 259). -/
def tgtSizes (tbl : FlowTable) : List F :=
  (groupKeys (tbl.map (fun r => r.target))).map
    (fun g => pdSum ((tbl.filter (fun r => r.target == g)).map (fun r => r.inflow)))

/-- Embeds _expected_flow_entropy (lines 18-22). bySource=true is the call
with ('source','outflow'), bySource=false the call with ('target','inflow').
Weights are group sums renormalized by their (pandas) total; the
mass-weighted entropies are combined with np.nansum. -/
noncomputable def expected_flow_entropy (tbl : FlowTable) (bySource : Bool) : RE :=
  let keyOf : FlowRow → String := fun r => if bySource then r.source else r.target
  let valOf : FlowRow → F := fun r => if bySource then r.outflow else r.inflow
  let keys := groupKeys (tbl.map keyOf)
  let vals : String → List F := fun g => (tbl.filter (fun r => keyOf r == g)).map valOf
  let sums := keys.map (fun g => pdSum (vals g))
  let wtot := pdSum sums
  let weights := sums.map (fun x => F.div x wtot)
  let ents := keys.map (fun g => calculate_entropy (vals g))
  reNanSum (List.zipWith mulFRE weights ents)

/-- One row of the entropy metric table (direction, t0, t1, expected, prior). -/
structure EntropyRow where
  direction : String
  t0 : ℚ
  t1 : ℚ
  expected : RE
  prior : RE

/-- Embeds the body of compute_flow_entropy (lines 235-272) applied to the
cache contents: per cached span, the expected entropies conditioned on
source (key 'forward') and on target (key 'backward'), and the prior
entropies produced by pd.concat([tgt_entropy, src_entropy],
keys=['forward','backward']) — so 'forward' carries the target-marginal
entropy and 'backward' the source-marginal entropy. -/
noncomputable def entropyTable (c : List ((ℚ × ℚ) × FlowTable)) : List EntropyRow :=
  (c.map (fun p =>
    { direction := "forward", t0 := p.1.1, t1 := p.1.2,
      expected := expected_flow_entropy p.2 true,
      prior := calculate_entropy (tgtSizes p.2) : EntropyRow }))
  ++ (c.map (fun p =>
    { direction := "backward", t0 := p.1.1, t1 := p.1.2,
      expected := expected_flow_entropy p.2 false,
      prior := calculate_entropy (srcSizes p.2) : EntropyRow }))

/-- One row of the consistency metric table. -/
structure ConsistencyRow where
  direction : String
  t0 : ℚ
  t1 : ℚ
  value : F
deriving DecidableEq, Repr

/-- Embeds the body of compute_flow_consistency (lines 216-233) applied to
the cache contents: per cached span the diagonal (source == target) sums of
outflow (melted under 'forward') and inflow (under 'backward'). -/
def consistencyTable (c : List ((ℚ × ℚ) × FlowTable)) : List ConsistencyRow :=
  (c.map (fun p =>
    { direction := "forward", t0 := p.1.1, t1 := p.1.2,
      value := pdSum ((p.2.filter (fun r => r.source == r.target)).map
        (fun r => r.outflow)) : ConsistencyRow }))
  ++ (c.map (fun p =>
    { direction := "backward", t0 := p.1.1, t1 := p.1.2,
      value := pdSum ((p.2.filter (fun r => r.source == r.target)).map
        (fun r => r.inflow)) : ConsistencyRow }))

/-- Errors raised by the metric methods before any table is produced:
self.flow_dfs.values() on None raises AttributeError; pd.concat of an empty
collection raises ValueError (no objects to concatenate). -/
inductive MetricError where
  | noneTypeError : MetricError
  | emptyConcatError : MetricError
deriving DecidableEq, Repr

/-- compute_flow_entropy as a method: fails on a None cache (caching
disabled) and on an empty cache, else returns the entropy table. -/
noncomputable def compute_flow_entropy (s : SankeyState) :
    Except MetricError (List EntropyRow) :=
  match s.flow_dfs with
  | none => .error .noneTypeError
  | some c => if c.isEmpty then .error .emptyConcatError else .ok (entropyTable c)

/-- compute_flow_consistency as a method: same failure modes. -/
def compute_flow_consistency (s : SankeyState) :
    Except MetricError (List ConsistencyRow) :=
  match s.flow_dfs with
  | none => .error .noneTypeError
  | some c => if c.isEmpty then .error .emptyConcatError else .ok (consistencyTable c)

/-- Number of observations carrying time label t in the metadata table. -/
def countObs (times : List ℚ) (t : ℚ) : Nat := (times.filter (fun x => x = t)).length

/-- Collaborator contract of the transport model (spec section 6): on every
day pair of the hop path, push_forward returns one row per observation of the
target time point, each row being a distribution over the group columns. -/
def pushOk (s : SankeyState) (t0 t1 : ℚ) : Prop :=
  ∀ m ax p, p ∈ dayPairsIn s.model t0 t1 →
    (s.model.push m p.1 p.2 ax).length = countObs s.model.obs_times p.2 ∧
    ∀ r ∈ s.model.push m p.1 p.2 ax, r.length = s.columns.length

/-- Replace the transport model's push_forward operation, leaving all other
state intact (used to state that a computation never invokes it). -/
def withPush (s : SankeyState) (f : Mat → ℚ → ℚ → Nat → Mat) : SankeyState :=
  { s with model := { s.model with push := f } }

/-- The full source-group x target-group cross product in the column-major
order pd.melt produces. -/
def crossPairs (srcs tgts : List String) : List (String × String) :=
  (tgts.map (fun t => srcs.map (fun a => (a, t)))).flatten

/-- The flow table a zero-hop span actually produces: the renormalized
cross-tabulation S0^T S1 of the two endpoint blocks, melted and merged with
itself (outflow = inflow since no push normalization ever ran). -/
def selfSpanTable (s : SankeyState) (t : ℚ) : FlowTable :=
  flowMerge s ((gramT (endpointDists s t t).1 (endpointDists s t t).2).getD [])
    ((gramT (endpointDists s t t).1 (endpointDists s t t).2).getD [])

/-- Column sums of a matrix over the first g columns. -/
def colSums (m : Mat) (g : Nat) : List F :=
  (List.range g).map (fun j => npSum (m.map (fun row => row.getD j (F.q 0))))

/-- Modelled from the spec: "outflow/inflow equal to the outer product of the
renormalized S0/S1 distributions" (section 8, self-path identity) — the flow
table whose outflow and inflow at (source i, target j) are both the product
of the i-th entry of the S0 group marginal with the j-th entry of the S1
group marginal. -/
def outerFlowTable (s : SankeyState) (t0 t1 : ℚ) : FlowTable :=
  let d := endpointDists s t0 t1
  let p0 := colSums d.1 s.columns.length
  let p1 := colSums d.2 s.columns.length
  ((s.columns.enum.map (fun tj => s.columns.enum.map (fun si =>
    { source := si.2, target := tj.2,
      outflow := F.mul (p0.getD si.1 (F.q 0)) (p1.getD tj.1 (F.q 0)),
      inflow := F.mul (p0.getD si.1 (F.q 0)) (p1.getD tj.1 (F.q 0)) : FlowRow }))) :
    List (List FlowRow)).flatten

/-- The map x ↦ x * ln x extended with the 0 * ln 0 = 0 convention
(spec section 4.4: the convention the spec ascribes to the entropy code). -/
noncomputable def xlogZero (x : ℝ) : ℝ := if x = 0 then 0 else x * Real.log x

/-- Modelled from the spec: Shannon entropy H(p) = -sum p_i ln p_i with
masses renormalized to sum 1 first and the convention 0 * ln 0 = 0
(spec section 4.4). -/
noncomputable def specEntropy (l : List ℚ) : ℝ :=
  -((l.map (fun a => xlogZero ((a / l.sum : ℚ) : ℝ))).sum)

/-- Real payload of an entropy-layer value (0 for NaN and infinities);
used only in proofs. -/
def RE.toR : RE → ℝ
  | RE.r a => a
  | _ => 0

/-- A transport model whose push_forward is never used in the scenarios
below (identity on the state). -/
def pushId : Mat → ℚ → ℚ → Nat → Mat := fun m _ _ _ => m

/-- One time point 0 with two observations, one per group: the one-hot
two-observation scenario of the self-span counterexample. -/
def modelA : OTModel := { timepoints := [0], obs_times := [0, 0], push := pushId }

def sankeyA : SankeyState :=
  sankey_init modelA ["A", "B"] id [[F.q 1, F.q 0], [F.q 0, F.q 1]] true

/-- The table calculate_flows actually produces on sankeyA for the span
(0, 0): the diagonal cross-tabulation, not an outer product. -/
def tblA : FlowTable :=
  [{ source := "A", target := "A", outflow := F.q (1/2), inflow := F.q (1/2) },
   { source := "B", target := "A", outflow := F.q 0, inflow := F.q 0 },
   { source := "A", target := "B", outflow := F.q 0, inflow := F.q 0 },
   { source := "B", target := "B", outflow := F.q (1/2), inflow := F.q (1/2) }]

/-- The aggregator state after caching tblA under (0, 0). -/
def stateA : SankeyState := { sankeyA with flow_dfs := some [((0, 0), tblA)] }

/-- One observation at time 0 whose membership row is identically zero: a
degenerate zero-total-mass subset. -/
def modelB : OTModel := { timepoints := [0], obs_times := [0], push := pushId }

def sankeyB : SankeyState := sankey_init modelB ["A", "B"] id [[F.q 0, F.q 0]] true

/-- The NaN-filled table the degenerate scenario produces. -/
def tblB : FlowTable :=
  [{ source := "A", target := "A", outflow := F.nan, inflow := F.nan },
   { source := "B", target := "A", outflow := F.nan, inflow := F.nan },
   { source := "A", target := "B", outflow := F.nan, inflow := F.nan },
   { source := "B", target := "B", outflow := F.nan, inflow := F.nan }]

/-- Two valid time points 0 < 1 with one observation each: used to call
calculate_flows with t0 = 1 > t1 = 0. -/
def modelD : OTModel := { timepoints := [0, 1], obs_times := [0, 1], push := pushId }

def sankeyD : SankeyState := sankey_init modelD ["A"] id [[F.q 1], [F.q 1]] true

/-- A push_forward obeying the collaborator contract of modelD on the day
pair (0, 1): one row (one observation at time 1), one group column. -/
def pushW : Mat → ℚ → ℚ → Nat → Mat := fun _ _ _ _ => [[F.q 1]]

def modelW : OTModel := { timepoints := [0, 1], obs_times := [0, 1], push := pushW }

def sankeyW : SankeyState := sankey_init modelW ["A"] id [[F.q 1], [F.q 1]] true

/-- Two time points; both observations at time 0 belong to group A, while
time 1 has one observation per group; the transport model pushes everything
onto group A. Source marginal of the resulting span is (1, 0) (entropy NaN),
target marginal is (1/2, 1/2) (finite entropy). -/
def pushC : Mat → ℚ → ℚ → Nat → Mat := fun _ _ _ _ => [[F.q 1, F.q 0], [F.q 1, F.q 0]]

def modelC : OTModel := { timepoints := [0, 1], obs_times := [0, 0, 1, 1], push := pushC }

def sankeyC : SankeyState :=
  sankey_init modelC ["A", "B"] id
    [[F.q 1, F.q 0], [F.q 1, F.q 0], [F.q 1, F.q 0], [F.q 0, F.q 1]] true

/-- The table calculate_flows produces on sankeyC for the span (0, 1). -/
def tblC : FlowTable :=
  [{ source := "A", target := "A", outflow := F.q (1/2), inflow := F.q (1/2) },
   { source := "B", target := "A", outflow := F.q 0, inflow := F.q 0 },
   { source := "A", target := "B", outflow := F.q (1/2), inflow := F.q (1/2) },
   { source := "B", target := "B", outflow := F.q 0, inflow := F.q 0 }]

/-- The cache holding the span (0, 1) of sankeyC. -/
def cacheC : List ((ℚ × ℚ) × FlowTable) := [((0, 1), tblC)]

/-- A default entropy row (for head access in closed statements). -/
def defaultEntropyRow : EntropyRow :=
  { direction := "", t0 := 0, t1 := 0, expected := RE.nan, prior := RE.nan }

/-- A str coercion on Bool labels that collides: both labels print as "1". -/
def pyStrCollide : Bool → String := fun _ => "1"

/-- sankeyA built with caching disabled. -/
def sankeyF : SankeyState :=
  sankey_init modelA ["A", "B"] id [[F.q 1, F.q 0], [F.q 0, F.q 1]] false

/-- If caching is off, calculate_flows returns the state unchanged. -/
theorem calc_state_of_not_cache (s : SankeyState) (t0 t1 : ℚ) (tbl : FlowTable)
    (s' : SankeyState) (hc : s.cache_flow_dfs = false)
    (h : calculate_flows s t0 t1 = .ok (tbl, s')) : s' = s := by
  unfold calculate_flows at h
  cases hO : rawOut s t0 t1 <;> rw [hO] at h
  · exact absurd h (by simp)
  cases hI : rawIn s t0 t1 <;> rw [hI] at h
  · exact absurd h (by simp)
  split at h
  · split at h
    · rw [Except.ok.injEq, Prod.mk.injEq] at h
      rw [← h.2]
      simp [updCache, hc]
    · exact absurd h (by simp)
  · rename_i contra
    exact (contra _ _ rfl rfl).elim

/-- C6: the group-assignment construction coerces column labels to strings
but performs no collision check: with two distinct labels both printing as
"1", construction succeeds and the duplicate columns are silently retained —
no ConfigurationError is raised (no such error exists in the code). -/
theorem c6_counterexample :
    (sankey_init modelA [true, false] pyStrCollide
      [[F.q 1, F.q 0], [F.q 0, F.q 1]] true).columns = ["1", "1"]
    ∧ ¬ List.Nodup (sankey_init modelA [true, false] pyStrCollide
      [[F.q 1, F.q 0], [F.q 0, F.q 1]] true).columns := by
  refine ⟨rfl, by decide⟩

/-- C6 (amended): construction coerces the column labels to strings and
keeps the values; it is total — it never fails, with colliding labels or
not. -/
theorem c6_amended {α : Type} (model : OTModel) (labels : List α)
    (pyStr : α → String) (mat : Mat) (b : Bool) :
    (sankey_init model labels pyStr mat b).columns = labels.map pyStr
    ∧ (sankey_init model labels pyStr mat b).subsets = mat :=
  ⟨rfl, rfl⟩

/-- C10: with caching disabled the cache store is None, calculate_flows
leaves the state untouched, and both metric methods raise (AttributeError on
the None cache); with caching enabled they still raise on an empty cache
(pd.concat with no objects) and return tables only once at least one span
is cached. -/
theorem c10_metrics_need_cache {α : Type} (model : OTModel) (labels : List α)
    (pyStr : α → String) (mat : Mat) :
    (sankey_init model labels pyStr mat false).flow_dfs = none
    ∧ (∀ t0 t1 tbl s', calculate_flows (sankey_init model labels pyStr mat false) t0 t1
        = .ok (tbl, s') → s' = sankey_init model labels pyStr mat false)
    ∧ compute_flow_entropy (sankey_init model labels pyStr mat false)
        = .error .noneTypeError
    ∧ compute_flow_consistency (sankey_init model labels pyStr mat false)
        = .error .noneTypeError
    ∧ (∀ s : SankeyState, s.flow_dfs = some [] →
        compute_flow_entropy s = .error .emptyConcatError
        ∧ compute_flow_consistency s = .error .emptyConcatError)
    ∧ (∀ (s : SankeyState) (c : List ((ℚ × ℚ) × FlowTable)),
        s.flow_dfs = some c → c ≠ [] →
        compute_flow_entropy s = .ok (entropyTable c)
        ∧ compute_flow_consistency s = .ok (consistencyTable c)) := by
  refine ⟨rfl, ?_, rfl, rfl, ?_, ?_⟩
  · intro t0 t1 tbl s' h
    exact calc_state_of_not_cache _ t0 t1 tbl s' rfl h
  · intro s h
    constructor
    · unfold compute_flow_entropy
      rw [h]
      rfl
    · unfold compute_flow_consistency
      rw [h]
      rfl
  · intro s c h hne
    have hE : c.isEmpty = false := by
      cases c
      · exact absurd rfl hne
      · rfl
    constructor
    · unfold compute_flow_entropy
      rw [h]
      simp [hE]
    · unfold compute_flow_consistency
      rw [h]
      simp [hE]

/-- Witness for C10 at concrete states: a cache-disabled aggregator, the
same aggregator after a (non-caching) calculate_flows call, an enabled but
empty cache, and a cache holding one span. -/
theorem c10_metrics_need_cache_witness :
    sankeyF.flow_dfs = none
    ∧ sankeyF = sankeyF
    ∧ compute_flow_entropy sankeyF = .error .noneTypeError
    ∧ compute_flow_consistency sankeyF = .error .noneTypeError
    ∧ (compute_flow_entropy sankeyA = .error .emptyConcatError
        ∧ compute_flow_consistency sankeyA = .error .emptyConcatError)
    ∧ (compute_flow_entropy stateA = .ok (entropyTable [((0, 0), tblA)])
        ∧ compute_flow_consistency stateA = .ok (consistencyTable [((0, 0), tblA)])) := by
  have h := c10_metrics_need_cache (α := String) modelA ["A", "B"] id
    [[F.q 1, F.q 0], [F.q 0, F.q 1]]
  exact ⟨h.1, h.2.1 0 0 tblA sankeyF (by with_unfolding_all rfl), h.2.2.1, h.2.2.2.1,
    h.2.2.2.2.1 sankeyA rfl,
    h.2.2.2.2.2 stateA [((0, 0), tblA)] rfl (List.cons_ne_nil _ _)⟩

/-- Mapping a function of the payload over an enumeration forgets the
indices. -/
theorem enumFrom_map_snd_apply {α β : Type} (f : α → β) :
    ∀ (l : List α) (n : Nat), (l.enumFrom n).map (fun si => f si.2) = l.map f
  | [], _ => rfl
  | _ :: t, n => by
    simp only [List.enumFrom_cons, List.map_cons, List.cons.injEq, true_and]
    exact enumFrom_map_snd_apply f t (n + 1)

/-- The (source, target) keys of a melted matrix are exactly the column-major
cross product of the label lists, whatever the matrix holds. -/
theorem formatFlow_keys (m : Mat) (srcs tgts : List String) :
    (formatFlow m srcs tgts).map (fun r => (r.1, r.2.1)) = crossPairs srcs tgts := by
  unfold formatFlow crossPairs
  rw [List.map_flatten, List.map_map]
  congr 1
  rw [show (List.enum tgts) = tgts.enumFrom 0 from rfl]
  refine Eq.trans (List.map_congr_left ?_)
    (enumFrom_map_snd_apply (fun t => srcs.map (fun a => (a, t))) tgts 0)
  intro tj _
  show (srcs.enum.map _).map _ = srcs.map (fun a => (a, tj.2))
  rw [List.map_map]
  exact enumFrom_map_snd_apply (fun a => (a, tj.2)) srcs 0

/-- A key present among a long-form table's keys can be looked up. -/
theorem lookupFlow_isSome_of_mem_keys (R : List (String × String × F)) (a b : String)
    (h : (a, b) ∈ R.map (fun r => (r.1, r.2.1))) : (lookupFlow R a b).isSome := by
  rw [List.mem_map] at h
  obtain ⟨r, hr, hk⟩ := h
  rw [lookupFlow, Option.isSome_map']
  rw [List.find?_isSome]
  refine ⟨r, hr, ?_⟩
  rw [Prod.mk.injEq] at hk
  rw [Bool.and_eq_true, beq_iff_eq, beq_iff_eq]
  exact ⟨hk.1, hk.2⟩

/-- When every left key can be looked up on the right, the merge keeps the
left rows (keys and outflow values) unchanged. -/
theorem mergeFlows_map_left :
    ∀ (L R : List (String × String × F)),
    (∀ a ∈ L, (lookupFlow R a.1 a.2.1).isSome) →
    (mergeFlows L R).map (fun r => (r.source, r.target, r.outflow)) = L
  | [], _, _ => rfl
  | a :: L, R, h => by
    have ha := h a (List.mem_cons_self a L)
    obtain ⟨w, hw⟩ := Option.isSome_iff_exists.mp ha
    rw [mergeFlows, List.filterMap_cons, hw]
    simp only [Option.map_some']
    rw [List.map_cons]
    have ih := mergeFlows_map_left L R (fun x hx => h x (List.mem_cons_of_mem a hx))
    rw [mergeFlows] at ih
    rw [ih]

/-- C9: every successful calculate_flows call returns a table whose
(source, target) column is the full group x group cross product — no row is
removed at computation time (zero-row filtering exists only in
plot_sankey_rows, the presentation step). -/
theorem c9_full_cross_product (s : SankeyState) (t0 t1 : ℚ) (tbl : FlowTable)
    (s' : SankeyState) (h : calculate_flows s t0 t1 = .ok (tbl, s')) :
    tbl.map (fun r => (r.source, r.target)) = crossPairs s.columns s.columns := by
  unfold calculate_flows at h
  cases hO : rawOut s t0 t1 <;> rw [hO] at h
  · exact absurd h (by simp)
  cases hI : rawIn s t0 t1 <;> rw [hI] at h
  · exact absurd h (by simp)
  split at h
  · split at h
    · rw [Except.ok.injEq, Prod.mk.injEq] at h
      rw [← h.1]
      rename_i MO MI hMO hMI hrect
      have hlk : ∀ a ∈ formatFlow (matDiv MO (matSum MO)) s.columns s.columns,
          (lookupFlow (formatFlow (matDiv MI (matSum MI)) s.columns s.columns)
            a.1 a.2.1).isSome := by
        intro a hmem
        apply lookupFlow_isSome_of_mem_keys
        rw [formatFlow_keys, ← formatFlow_keys (matDiv MO (matSum MO)) s.columns s.columns]
        exact List.mem_map_of_mem _ hmem
      have hm := mergeFlows_map_left
        (formatFlow (matDiv MO (matSum MO)) s.columns s.columns)
        (formatFlow (matDiv MI (matSum MI)) s.columns s.columns) hlk
      have : (flowMerge s MO MI).map (fun r => (r.source, r.target))
          = ((flowMerge s MO MI).map (fun r => (r.source, r.target, r.outflow))).map
            (fun x => (x.1, x.2.1)) := by
        rw [List.map_map]
        rfl
      rw [this, flowMerge, hm, formatFlow_keys]
    · exact absurd h (by simp)
  · rename_i contra
    exact (contra _ _ rfl rfl).elim

/-- Witness for C9: the concrete two-group self-span run. -/
theorem c9_full_cross_product_witness :
    tblA.map (fun r => (r.source, r.target)) = crossPairs sankeyA.columns sankeyA.columns :=
  c9_full_cross_product sankeyA 0 0 tblA stateA (by with_unfolding_all rfl)

/-- After an insert, the key is present. -/
theorem cacheInsert_any (c : List ((ℚ × ℚ) × FlowTable)) (k : ℚ × ℚ) (v : FlowTable) :
    ((cacheInsert c k v).any (fun p => p.1 == k)) = true := by
  by_cases h : c.any (fun p => p.1 == k)
  · rw [cacheInsert, if_pos h, List.any_map]
    rw [List.any_eq_true] at h ⊢
    obtain ⟨x, hx, hpx⟩ := h
    refine ⟨x, hx, ?_⟩
    simp only [Function.comp_apply, hpx, if_pos]
    exact beq_self_eq_true k
  · rw [cacheInsert, if_neg h, List.any_append]
    have h2 : ([(k, v)].any (fun p => p.1 == k)) = true := by
      simp
    rw [h2, Bool.or_true]

/-- Overwriting the value at a key already carrying that value changes
nothing. -/
theorem cacheInsert_overwrite_map (c : List ((ℚ × ℚ) × FlowTable)) (k : ℚ × ℚ)
    (v : FlowTable) :
    ((cacheInsert c k v).map fun p => if p.1 == k then (k, v) else p)
      = cacheInsert c k v := by
  by_cases h : c.any (fun p => p.1 == k)
  · rw [cacheInsert, if_pos h, List.map_map]
    apply List.map_congr_left
    intro p _
    by_cases hp : p.1 == k
    · simp only [Function.comp_apply, hp, if_pos]
      rw [if_pos (beq_self_eq_true k)]
    · simp only [Function.comp_apply, hp]
      rw [if_neg (by simp [hp]), if_neg (by simp [hp])]
  · rw [cacheInsert, if_neg h, List.map_append]
    have h1 : (c.map fun p => if p.1 == k then (k, v) else p) = c := by
      refine Eq.trans (List.map_congr_left ?_) (List.map_id c)
      intro p hp
      refine if_neg ?_
      intro hcon
      exact h (List.any_eq_true.mpr ⟨p, hp, hcon⟩)
    have h2 : ([(k, v)].map fun p => if p.1 == k then (k, v) else p) = [(k, v)] := by
      simp
    rw [h1, h2]

/-- Overwriting a dict key twice with the same value is the same as
overwriting it once. -/
theorem cacheInsert_idem (c : List ((ℚ × ℚ) × FlowTable)) (k : ℚ × ℚ) (v : FlowTable) :
    cacheInsert (cacheInsert c k v) k v = cacheInsert c k v := by
  rw [cacheInsert, if_pos (cacheInsert_any c k v)]
  exact cacheInsert_overwrite_map c k v

/-- The hop-path and contraction steps never read the cache: replacing the
cache leaves rawOut unchanged. -/
theorem model_updCache (s : SankeyState) (a b : ℚ) (tbl : FlowTable) :
    (updCache s a b tbl).model = s.model := by
  rw [updCache]
  by_cases hc : s.cache_flow_dfs
  · rw [if_pos hc]
  · rw [if_neg hc]

/-- Replacing the cache leaves the membership matrix unchanged. -/
theorem subsets_updCache (s : SankeyState) (a b : ℚ) (tbl : FlowTable) :
    (updCache s a b tbl).subsets = s.subsets := by
  rw [updCache]
  by_cases hc : s.cache_flow_dfs
  · rw [if_pos hc]
  · rw [if_neg hc]

/-- Replacing the cache leaves the columns unchanged. -/
theorem columns_updCache (s : SankeyState) (a b : ℚ) (tbl : FlowTable) :
    (updCache s a b tbl).columns = s.columns := by
  rw [updCache]
  by_cases hc : s.cache_flow_dfs
  · rw [if_pos hc]
  · rw [if_neg hc]

/-- rawOut reads only the model and the membership matrix. -/
theorem rawOut_congr (s s' : SankeyState) (t0 t1 : ℚ) (hm : s'.model = s.model)
    (hs : s'.subsets = s.subsets) : rawOut s' t0 t1 = rawOut s t0 t1 := by
  unfold rawOut endpointDists dayPairsIn
  rw [hm, hs]

/-- rawIn reads only the model and the membership matrix. -/
theorem rawIn_congr (s s' : SankeyState) (t0 t1 : ℚ) (hm : s'.model = s.model)
    (hs : s'.subsets = s.subsets) : rawIn s' t0 t1 = rawIn s t0 t1 := by
  unfold rawIn endpointDists dayPairsIn
  rw [hm, hs]

/-- The hop-path and contraction steps never read the cache: replacing the
cache leaves rawOut unchanged. -/
theorem rawOut_updCache (s : SankeyState) (a b t0 t1 : ℚ) (tbl : FlowTable) :
    rawOut (updCache s a b tbl) t0 t1 = rawOut s t0 t1 :=
  rawOut_congr s (updCache s a b tbl) t0 t1 (model_updCache s a b tbl)
    (subsets_updCache s a b tbl)

/-- Same for rawIn. -/
theorem rawIn_updCache (s : SankeyState) (a b t0 t1 : ℚ) (tbl : FlowTable) :
    rawIn (updCache s a b tbl) t0 t1 = rawIn s t0 t1 :=
  rawIn_congr s (updCache s a b tbl) t0 t1 (model_updCache s a b tbl)
    (subsets_updCache s a b tbl)

/-- Writing the same table under the same key a second time leaves the
state fixed. -/
theorem updCache_idem (s : SankeyState) (t0 t1 : ℚ) (tbl : FlowTable) :
    updCache (updCache s t0 t1 tbl) t0 t1 tbl = updCache s t0 t1 tbl := by
  obtain ⟨mo, su, co, cf, fd⟩ := s
  cases cf
  · rfl
  · cases fd
    · rfl
    · rename_i c
      show updCache ⟨mo, su, co, true, some (cacheInsert c (t0, t1) tbl)⟩ t0 t1 tbl = _
      rw [updCache]
      rw [if_pos rfl]
      show SankeyState.mk _ _ _ _ (some (cacheInsert (cacheInsert c (t0, t1) tbl) (t0, t1) tbl)) = _
      rw [cacheInsert_idem]
      rfl

/-- C8: calculate_flows is idempotent: a second call with the same span on
the state produced by the first returns the identical table and leaves the
state (cache included) identical — the overwrite stores the same value. -/
theorem c8_idempotent (s : SankeyState) (t0 t1 : ℚ) (tbl : FlowTable)
    (s' : SankeyState) (h : calculate_flows s t0 t1 = .ok (tbl, s')) :
    calculate_flows s' t0 t1 = .ok (tbl, s') := by
  unfold calculate_flows at h ⊢
  cases hO : rawOut s t0 t1 <;> rw [hO] at h
  · exact absurd h (by simp)
  cases hI : rawIn s t0 t1 <;> rw [hI] at h
  · exact absurd h (by simp)
  rename_i MO MI
  split at h
  · split at h
    · rename_i MO' MI' hMO hMI hrect
      rw [Except.ok.injEq, Prod.mk.injEq] at h
      rw [Option.some.injEq] at hMO hMI
      rw [← hMO, ← hMI] at hrect h
      have hs' : s' = updCache s t0 t1 (flowMerge s MO MI) := h.2.symm
      have htbl : tbl = flowMerge s MO MI := h.1.symm
      have hO' : rawOut s' t0 t1 = some MO := by
        rw [hs', rawOut_updCache, hO]
      have hI' : rawIn s' t0 t1 = some MI := by
        rw [hs', rawIn_updCache, hI]
      rw [hO', hI']
      have hcols : s'.columns = s.columns := by
        rw [hs', columns_updCache]
      have hfm : flowMerge s' MO MI = flowMerge s MO MI := by
        rw [flowMerge, flowMerge, hcols]
      have hupd : updCache s' t0 t1 tbl = s' := by
        rw [hs', htbl, updCache_idem]
      show (if (rectangular (matDiv MO (matSum MO)) s'.columns.length s'.columns.length
          && rectangular (matDiv MI (matSum MI)) s'.columns.length s'.columns.length) = true then
          Except.ok (flowMerge s' MO MI, updCache s' t0 t1 (flowMerge s' MO MI))
        else Except.error FlowError.shapeMismatch) = Except.ok (tbl, s')
      rw [hcols, if_pos hrect, hfm, ← htbl, hupd]
    · exact absurd h (by simp)
  · rename_i contra
    exact (contra _ _ rfl rfl).elim

/-- Witness for C8: the second self-span call on the cached state returns
the identical table and state. -/
theorem c8_idempotent_witness : calculate_flows stateA 0 0 = .ok (tblA, stateA) :=
  c8_idempotent sankeyA 0 0 tblA stateA (by with_unfolding_all rfl)

/-- Rows selected at a time point are rows of the membership matrix. -/
theorem selectRows_mem (times : List ℚ) (m : Mat) (t : ℚ) (r : List F)
    (h : r ∈ selectRows times m t) : r ∈ m := by
  rw [selectRows, List.mem_map] at h
  obtain ⟨p, hp, hpr⟩ := h
  rw [List.mem_filter] at hp
  have := List.of_mem_zip hp.1
  rw [← hpr]
  exact this.2

/-- On a duplicate-free time axis the hop path of a (t, t) span is empty. -/
theorem dayPairsIn_self (model : OTModel) (t : ℚ) (hN : model.timepoints.Nodup) :
    dayPairsIn model t t = [] := by
  unfold dayPairsIn window
  have hall : ∀ x ∈ model.timepoints.filter (fun x => t ≤ x && x ≤ t), x = t := by
    intro x hx
    rw [List.mem_filter, Bool.and_eq_true, decide_eq_true_eq, decide_eq_true_eq] at hx
    exact le_antisymm hx.2.2 hx.2.1
  have hnd := hN.filter (fun x => t ≤ x && x ≤ t)
  cases hcase : model.timepoints.filter (fun x => t ≤ x && x ≤ t) with
  | nil => rfl
  | cons a l =>
    cases l with
    | nil => rfl
    | cons b l' =>
      rw [hcase] at hnd hall
      have hab : a ≠ b := by
        intro hc
        rw [List.nodup_cons] at hnd
        exact hnd.1 (hc ▸ List.mem_cons_self b l')
      exact absurd ((hall a (List.mem_cons_self _ _)).trans
        (hall b (List.mem_cons_of_mem _ (List.mem_cons_self _ _))).symm) hab

/-- A zero-hop calculate_flows call succeeds and returns the renormalized
cross-tabulation S0^T S1, cached: the push-forward operation is never used. -/
theorem selfSpan_ok (s : SankeyState) (t : ℚ) (hN : s.model.timepoints.Nodup)
    (hwf : ∀ r ∈ s.subsets, r.length = s.columns.length)
    (hne : selectRows s.model.obs_times s.subsets t ≠ []) :
    calculate_flows s t t = .ok (selfSpanTable s t, updCache s t t (selfSpanTable s t)) := by
  have hdp : dayPairsIn s.model t t = [] := dayPairsIn_self s.model t hN
  have hO : rawOut s t t = gramT (endpointDists s t t).1 (endpointDists s t t).2 := by
    unfold rawOut
    rw [hdp]
    rfl
  have hI : rawIn s t t = gramT (endpointDists s t t).1 (endpointDists s t t).2 := by
    unfold rawIn
    rw [hdp]
    rfl
  obtain ⟨r0, rest, hs0⟩ := List.exists_cons_of_ne_nil hne
  have hr0 : r0.length = s.columns.length :=
    hwf r0 (selectRows_mem _ _ _ _ (hs0 ▸ List.mem_cons_self r0 rest))
  have hhead : ((endpointDists s t t).1.headD []).length = s.columns.length := by
    show ((matDiv (selectRows s.model.obs_times s.subsets t) _).headD []).length = _
    rw [hs0, matDiv, List.map_cons, List.headD_cons, List.length_map]
    exact hr0
  have hsome : gramT (endpointDists s t t).1 (endpointDists s t t).2
      = some ((List.range ((endpointDists s t t).1.headD []).length).map (fun i =>
          (List.range (((endpointDists s t t).2.headD []).length)).map (fun j =>
          npSum (((endpointDists s t t).1.zip (endpointDists s t t).2).map (fun p =>
            F.mul (p.1.getD i (F.q 0)) (p.2.getD j (F.q 0))))))) := by
    rw [gramT, if_pos (show (endpointDists s t t).1.length
      = (endpointDists s t t).2.length from rfl)]
  have hhead2 : (((endpointDists s t t).2.headD []).length) = s.columns.length := hhead
  have hrect : rectangular
      (matDiv ((gramT (endpointDists s t t).1 (endpointDists s t t).2).getD [])
        (matSum ((gramT (endpointDists s t t).1 (endpointDists s t t).2).getD [])))
      s.columns.length s.columns.length = true := by
    rw [hsome, Option.getD_some, rectangular, Bool.and_eq_true]
    constructor
    · rw [matDiv, List.length_map, List.length_map, List.length_range, hhead]
      exact beq_self_eq_true _
    · rw [List.all_eq_true]
      intro r hr
      rw [matDiv, List.mem_map] at hr
      obtain ⟨r', hr', hrr⟩ := hr
      rw [List.mem_map] at hr'
      obtain ⟨i, _, hir⟩ := hr'
      rw [← hrr, ← hir, List.length_map, List.length_map, List.length_range, hhead2]
      exact beq_self_eq_true _
  obtain ⟨M, hM⟩ : ∃ M, gramT (endpointDists s t t).1 (endpointDists s t t).2 = some M :=
    ⟨_, hsome⟩
  have hsst : selfSpanTable s t = flowMerge s M M := by
    unfold selfSpanTable
    rw [hM, Option.getD_some]
  unfold calculate_flows
  rw [hO, hI, hM]
  show (if (rectangular (matDiv M (matSum M)) s.columns.length s.columns.length
      && rectangular (matDiv M (matSum M)) s.columns.length s.columns.length) = true then
      Except.ok (flowMerge s M M, updCache s t t (flowMerge s M M))
    else Except.error FlowError.shapeMismatch)
    = Except.ok (selfSpanTable s t, updCache s t t (selfSpanTable s t))
  rw [hM, Option.getD_some] at hrect
  rw [if_pos (by rw [hrect]; rfl), hsst]

/-- C2: on the concrete one-hot self-span, calculate_flows(0, 0) succeeds
and returns the diagonal cross-tabulation table tblA, which differs from the
outer product of the renormalized S0/S1 group marginals (whose off-diagonal
entries are 1/4, not 0). -/
theorem c2_counterexample :
    (calculate_flows sankeyA 0 0).toOption.map Prod.fst = some tblA
    ∧ tblA ≠ outerFlowTable sankeyA 0 0 := by
  constructor
  · with_unfolding_all rfl
  · with_unfolding_all decide

/-- C2 (amended): a self-span calculate_flows(t, t) performs zero hops — the
transport model's push-forward is never invoked (replacing it does not change
the table) — and returns the renormalized cross-tabulation S0^T S1 (melted
and merged with itself), cached under (t, t); this is in general not the
outer product of the group marginals. -/
theorem c2_amended (s : SankeyState) (t : ℚ) (hN : s.model.timepoints.Nodup)
    (hwf : ∀ r ∈ s.subsets, r.length = s.columns.length)
    (hne : selectRows s.model.obs_times s.subsets t ≠ []) :
    calculate_flows s t t = .ok (selfSpanTable s t, updCache s t t (selfSpanTable s t))
    ∧ ∀ f, (calculate_flows (withPush s f) t t).map Prod.fst
        = (calculate_flows s t t).map Prod.fst := by
  have h1 := selfSpan_ok s t hN hwf hne
  refine ⟨h1, fun f => ?_⟩
  have h2 := selfSpan_ok (withPush s f) t hN hwf hne
  rw [h1, h2]
  rfl

/-- Witness for C2 (amended) at the concrete one-hot model. -/
theorem c2_amended_witness :
    calculate_flows sankeyA 0 0
      = .ok (selfSpanTable sankeyA 0, updCache sankeyA 0 0 (selfSpanTable sankeyA 0))
    ∧ ∀ f, (calculate_flows (withPush sankeyA f) 0 0).map Prod.fst
        = (calculate_flows sankeyA 0 0).map Prod.fst :=
  c2_amended sankeyA 0 (by decide) (by decide) (by with_unfolding_all decide)

/-- Folding numpy addition of all-zero values leaves the accumulator. -/
theorem foldl_add_zero : ∀ (l : List F) (c : ℚ), (∀ v ∈ l, v = F.q 0) →
    l.foldl F.add (F.q c) = F.q c
  | [], _, _ => rfl
  | v :: l, c, h => by
    have hv := h v (List.mem_cons_self v l)
    rw [List.foldl_cons, hv]
    rw [show F.add (F.q c) (F.q 0) = F.q c by rw [F.add]; rw [add_zero]]
    exact foldl_add_zero l c (fun x hx => h x (List.mem_cons_of_mem v hx))

/-- numpy sum of an all-zero list is zero. -/
theorem npSum_zero (l : List F) (h : ∀ v ∈ l, v = F.q 0) : npSum l = F.q 0 :=
  foldl_add_zero l 0 h

/-- A NaN accumulator poisons the whole numpy fold. -/
theorem foldl_add_nan : ∀ (l : List F), l.foldl F.add F.nan = F.nan
  | [] => rfl
  | v :: l => by
    rw [List.foldl_cons]
    rw [show F.add F.nan v = F.nan by cases v <;> rfl]
    exact foldl_add_nan l

/-- A NaN member poisons a numpy sum. -/
theorem npSum_nan_mem : ∀ (l : List F) (acc : F), F.nan ∈ l → l.foldl F.add acc = F.nan
  | [], _, h => absurd h (List.not_mem_nil _)
  | v :: l, acc, h => by
    rw [List.foldl_cons]
    rcases List.mem_cons.mp h with hv | hv
    · rw [← hv]
      rw [show F.add acc F.nan = F.nan by cases acc <;> rfl]
      exact foldl_add_nan l
    · exact npSum_nan_mem l (F.add acc v) hv

/-- The head row of the renormalized endpoint block has one entry per group
column. -/
theorem endpointHead_len (s : SankeyState) (t : ℚ)
    (hwf : ∀ r ∈ s.subsets, r.length = s.columns.length)
    (hne : selectRows s.model.obs_times s.subsets t ≠ []) :
    ((endpointDists s t t).1.headD []).length = s.columns.length := by
  obtain ⟨r0, rest, hs0⟩ := List.exists_cons_of_ne_nil hne
  have hr0 : r0.length = s.columns.length :=
    hwf r0 (selectRows_mem _ _ _ _ (hs0 ▸ List.mem_cons_self r0 rest))
  show ((matDiv (selectRows s.model.obs_times s.subsets t) _).headD []).length = _
  rw [hs0, matDiv, List.map_cons, List.headD_cons, List.length_map]
  exact hr0

/-- getD at an in-range index returns a member of the list. -/
theorem getD_mem {α : Type} (l : List α) (i : Nat) (d : α) (h : i < l.length) :
    l.getD i d ∈ l := by
  rw [List.getD_eq_getElem?_getD, List.getElem?_eq_getElem h, Option.getD_some]
  exact List.getElem_mem h

/-- The index of an enumeration member is in range. -/
theorem enum_fst_lt {α : Type} (l : List α) (p : Nat × α) (h : p ∈ l.enum) :
    p.1 < l.length := by
  rw [List.mem_enum_iff_getElem?] at h
  exact (List.getElem?_eq_some_iff.mp h).1

/-- Melting an all-NaN rectangular matrix yields only NaN values. -/
theorem formatFlow_val_nan (m : Mat) (srcs tgts : List String)
    (hlen : m.length = srcs.length)
    (hrows : ∀ r ∈ m, r.length = tgts.length)
    (hnan : ∀ r ∈ m, ∀ v ∈ r, v = F.nan) :
    ∀ a ∈ formatFlow m srcs tgts, a.2.2 = F.nan := by
  intro a ha
  rw [formatFlow, List.mem_flatten] at ha
  obtain ⟨L', hL', haL'⟩ := ha
  rw [List.mem_map] at hL'
  obtain ⟨tj, htj, hLt⟩ := hL'
  rw [← hLt, List.mem_map] at haL'
  obtain ⟨si, hsi, hasi⟩ := haL'
  rw [← hasi]
  show (m.getD si.1 []).getD tj.1 (F.q 0) = F.nan
  have hi : si.1 < m.length := by
    rw [hlen]
    exact enum_fst_lt srcs si hsi
  have hrow : m.getD si.1 [] ∈ m := getD_mem m si.1 [] hi
  have hj : tj.1 < (m.getD si.1 []).length := by
    rw [hrows _ hrow]
    exact enum_fst_lt tgts tj htj
  exact hnan _ hrow _ (getD_mem _ tj.1 (F.q 0) hj)

/-- Merging two all-NaN long tables yields all-NaN outflow and inflow. -/
theorem mergeFlows_nan (L R : List (String × String × F))
    (hL : ∀ a ∈ L, a.2.2 = F.nan) (hR : ∀ a ∈ R, a.2.2 = F.nan) :
    ∀ r ∈ mergeFlows L R, r.outflow = F.nan ∧ r.inflow = F.nan := by
  intro r hr
  rw [mergeFlows, List.mem_filterMap] at hr
  obtain ⟨a, haL, hf⟩ := hr
  rw [Option.map_eq_some'] at hf
  obtain ⟨w, hw, hwr⟩ := hf
  rw [lookupFlow, Option.map_eq_some'] at hw
  obtain ⟨e, he, hew⟩ := hw
  have heR := List.mem_of_find?_eq_some he
  rw [← hwr]
  exact ⟨hL a haL, hew ▸ hR e heR⟩

/-- C5 (amended): a zero-total-mass observation subset does NOT raise — the
0/0 division silently yields NaN, the zero-hop flow table is NaN-filled, and
calculate_flows succeeds and stores that NaN table in the cache under the
requested key (no DegenerateInputError exists in the code). -/
theorem c5_amended (s : SankeyState) (t : ℚ) (hN : s.model.timepoints.Nodup)
    (hwf : ∀ r ∈ s.subsets, r.length = s.columns.length)
    (hne : selectRows s.model.obs_times s.subsets t ≠ [])
    (hz : ∀ r ∈ selectRows s.model.obs_times s.subsets t, ∀ v ∈ r, v = F.q 0) :
    calculate_flows s t t = .ok (selfSpanTable s t, updCache s t t (selfSpanTable s t))
    ∧ (∀ r ∈ selfSpanTable s t, r.outflow = F.nan ∧ r.inflow = F.nan)
    ∧ (∀ c, s.cache_flow_dfs = true → s.flow_dfs = some c →
        (updCache s t t (selfSpanTable s t)).flow_dfs
          = some (cacheInsert c (t, t) (selfSpanTable s t))) := by
  refine ⟨selfSpan_ok s t hN hwf hne, ?_, ?_⟩
  · have hsum0 : matSum (selectRows s.model.obs_times s.subsets t) = F.q 0 := by
      apply npSum_zero
      intro v hv
      rw [List.mem_map] at hv
      obtain ⟨r, hr, hrv⟩ := hv
      rw [← hrv]
      exact npSum_zero r (hz r hr)
    have hAnan : ∀ r ∈ (endpointDists s t t).1, ∀ v ∈ r, v = F.nan := by
      intro r hr v hv
      rw [show (endpointDists s t t).1 = matDiv (selectRows s.model.obs_times s.subsets t)
        (matSum (selectRows s.model.obs_times s.subsets t)) from rfl, matDiv,
        List.mem_map] at hr
      obtain ⟨r', hr', hrr⟩ := hr
      rw [← hrr, List.mem_map] at hv
      obtain ⟨v', hv', hvv⟩ := hv
      rw [← hvv, hz r' hr' v' hv', hsum0]
      with_unfolding_all rfl
    have hArows : ∀ r ∈ (endpointDists s t t).1, r.length = s.columns.length := by
      intro r hr
      rw [show (endpointDists s t t).1 = matDiv (selectRows s.model.obs_times s.subsets t)
        (matSum (selectRows s.model.obs_times s.subsets t)) from rfl, matDiv,
        List.mem_map] at hr
      obtain ⟨r', hr', hrr⟩ := hr
      rw [← hrr, List.length_map]
      exact hwf r' (selectRows_mem _ _ _ _ hr')
    have hAne : (endpointDists s t t).1 ≠ [] := by
      show matDiv (selectRows s.model.obs_times s.subsets t)
        (matSum (selectRows s.model.obs_times s.subsets t)) ≠ []
      rw [matDiv]
      intro hcon
      exact hne (List.map_eq_nil_iff.mp hcon)
    obtain ⟨a0, A', hA0⟩ := List.exists_cons_of_ne_nil hAne
    have ha0len : a0.length = s.columns.length :=
      hArows a0 (hA0 ▸ List.mem_cons_self a0 A')
    have ha0nan : ∀ v ∈ a0, v = F.nan := hAnan a0 (hA0 ▸ List.mem_cons_self a0 A')
    have hheadA : ((endpointDists s t t).1.headD []) = a0 := by
      rw [hA0, List.headD_cons]
    have hsome : gramT (endpointDists s t t).1 (endpointDists s t t).2
        = some ((List.range ((endpointDists s t t).1.headD []).length).map (fun i =>
            (List.range (((endpointDists s t t).2.headD []).length)).map (fun j =>
            npSum (((endpointDists s t t).1.zip (endpointDists s t t).2).map (fun p =>
              F.mul (p.1.getD i (F.q 0)) (p.2.getD j (F.q 0))))))) := by
      rw [gramT, if_pos (show (endpointDists s t t).1.length
        = (endpointDists s t t).2.length from rfl)]
    have hMnan : ∀ row ∈ ((List.range ((endpointDists s t t).1.headD []).length).map (fun i =>
          (List.range (((endpointDists s t t).2.headD []).length)).map (fun j =>
          npSum (((endpointDists s t t).1.zip (endpointDists s t t).2).map (fun p =>
            F.mul (p.1.getD i (F.q 0)) (p.2.getD j (F.q 0))))))),
        ∀ v ∈ row, v = F.nan := by
      intro row hrow v hv
      rw [List.mem_map] at hrow
      obtain ⟨i, hi, hirow⟩ := hrow
      rw [← hirow, List.mem_map] at hv
      obtain ⟨j, hj, hjv⟩ := hv
      rw [List.mem_range] at hi hj
      rw [hheadA] at hi
      have hj' : j < a0.length := by
        have : ((endpointDists s t t).2.headD []) = a0 := hheadA
        rw [this] at hj
        exact hj
      rw [← hjv]
      have hz1 : (endpointDists s t t).1.zip (endpointDists s t t).2
          = (a0, a0) :: A'.zip A' := by
        show (endpointDists s t t).1.zip (endpointDists s t t).1 = _
        rw [hA0, List.zip_cons_cons]
      rw [hz1, List.map_cons]
      have hhead : F.mul (a0.getD i (F.q 0)) (a0.getD j (F.q 0)) = F.nan := by
        rw [ha0nan _ (getD_mem a0 i (F.q 0) hi), ha0nan _ (getD_mem a0 j (F.q 0) hj')]
        rfl
      rw [npSum]
      exact npSum_nan_mem _ _ (List.mem_cons.mpr (Or.inl hhead.symm))
    have hsst : selfSpanTable s t
        = flowMerge s ((List.range ((endpointDists s t t).1.headD []).length).map (fun i =>
            (List.range (((endpointDists s t t).2.headD []).length)).map (fun j =>
            npSum (((endpointDists s t t).1.zip (endpointDists s t t).2).map (fun p =>
              F.mul (p.1.getD i (F.q 0)) (p.2.getD j (F.q 0)))))))
          ((List.range ((endpointDists s t t).1.headD []).length).map (fun i =>
            (List.range (((endpointDists s t t).2.headD []).length)).map (fun j =>
            npSum (((endpointDists s t t).1.zip (endpointDists s t t).2).map (fun p =>
              F.mul (p.1.getD i (F.q 0)) (p.2.getD j (F.q 0))))))) := by
      unfold selfSpanTable
      rw [hsome, Option.getD_some]
    rw [hsst, flowMerge]
    set E := ((List.range ((endpointDists s t t).1.headD []).length).map (fun i =>
        (List.range (((endpointDists s t t).2.headD []).length)).map (fun j =>
        npSum (((endpointDists s t t).1.zip (endpointDists s t t).2).map (fun p =>
          F.mul (p.1.getD i (F.q 0)) (p.2.getD j (F.q 0)))))))
    have hM'nan : ∀ r ∈ matDiv E (matSum E), ∀ v ∈ r, v = F.nan := by
      intro r hr v hv
      rw [matDiv, List.mem_map] at hr
      obtain ⟨r', hr', hrr⟩ := hr
      rw [← hrr, List.mem_map] at hv
      obtain ⟨v', hv', hvv⟩ := hv
      rw [← hvv, hMnan r' hr' v' hv']
      cases matSum E <;> rfl
    have hM'len : (matDiv E (matSum E)).length = s.columns.length := by
      rw [matDiv, List.length_map]
      show E.length = _
      rw [List.length_map, List.length_range, hheadA, ha0len]
    have hM'rows : ∀ r ∈ matDiv E (matSum E), r.length = s.columns.length := by
      intro r hr
      rw [matDiv, List.mem_map] at hr
      obtain ⟨r', hr', hrr⟩ := hr
      rw [← hrr, List.length_map]
      rw [List.mem_map] at hr'
      obtain ⟨i, _, hir⟩ := hr'
      rw [← hir, List.length_map, List.length_range]
      rw [show ((endpointDists s t t).2.headD []) = a0 from hheadA, ha0len]
    have hfnan := formatFlow_val_nan (matDiv E (matSum E)) s.columns s.columns
      hM'len hM'rows hM'nan
    exact mergeFlows_nan _ _ hfnan hfnan
  · intro c hc hf
    rw [updCache, if_pos hc]
    show s.flow_dfs.map _ = _
    rw [hf, Option.map_some']

/-- C5: on the concrete degenerate state (one observation at time 0 with an
all-zero membership row), calculate_flows(0, 0) does not raise: it returns
the all-NaN table and writes it into the cache — contradicting the claimed
DegenerateInputError and the claimed untouched cache. -/
theorem c5_counterexample :
    (calculate_flows sankeyB 0 0).map (fun p => (p.1, p.2.flow_dfs))
      = .ok (tblB, some [((0, 0), tblB)])
    ∧ (tblB.all (fun r => r.outflow.isNan && r.inflow.isNan)) = true := by
  constructor
  · with_unfolding_all rfl
  · decide

/-- Witness for C5 (amended) at the concrete degenerate state. -/
theorem c5_amended_witness :
    calculate_flows sankeyB 0 0
      = .ok (selfSpanTable sankeyB 0, updCache sankeyB 0 0 (selfSpanTable sankeyB 0))
    ∧ (∀ r ∈ selfSpanTable sankeyB 0, r.outflow = F.nan ∧ r.inflow = F.nan)
    ∧ (∀ c, sankeyB.cache_flow_dfs = true → sankeyB.flow_dfs = some c →
        (updCache sankeyB 0 0 (selfSpanTable sankeyB 0)).flow_dfs
          = some (cacheInsert c (0, 0) (selfSpanTable sankeyB 0))) :=
  c5_amended sankeyB 0 (by decide) (by decide)
    (by with_unfolding_all decide) (by with_unfolding_all decide)

/-- Selecting rows by time keeps one row per observation at that time. -/
theorem filterZip_length (t : ℚ) : ∀ (ts : List ℚ) (m : Mat), ts.length = m.length →
    ((ts.zip m).filter (fun p => p.1 = t)).length = (ts.filter (fun x => x = t)).length
  | [], [], _ => rfl
  | [], _ :: _, h => absurd h (by simp)
  | _ :: _, [], h => absurd h (by simp)
  | a :: ts, r :: m', h => by
    have h' : ts.length = m'.length := by
      rw [List.length_cons, List.length_cons] at h
      exact Nat.succ.inj h
    rw [List.zip_cons_cons, List.filter_cons, List.filter_cons]
    by_cases hat : a = t
    · rw [if_pos (by simp [hat]), if_pos (by simp [hat]), List.length_cons,
        List.length_cons, filterZip_length t ts m' h']
    · rw [if_neg (by simp [hat]), if_neg (by simp [hat]), filterZip_length t ts m' h']

/-- selectRows returns countObs-many rows. -/
theorem selectRows_length (times : List ℚ) (m : Mat) (t : ℚ)
    (h : times.length = m.length) : (selectRows times m t).length = countObs times t := by
  rw [selectRows, List.length_map, countObs]
  exact filterZip_length t times m h

/-- Last element of the range filter over a strictly sorted time axis. -/
theorem filter_range_getLast? (t0 t1 : ℚ) : ∀ (l : List ℚ), l.Pairwise (· < ·) →
    t1 ∈ l → t0 ≤ t1 →
    (l.filter (fun x => t0 ≤ x && x ≤ t1)).getLast? = some t1
  | [], _, hmem, _ => absurd hmem (List.not_mem_nil _)
  | x :: rest, hp, hmem, hle => by
    rw [List.pairwise_cons] at hp
    by_cases hx1 : t1 = x
    · rw [← hx1]
      rw [List.filter_cons, if_pos (by simp [hle])]
      have hrest : rest.filter (fun x => t0 ≤ x && x ≤ t1) = [] := by
        rw [List.filter_eq_nil_iff]
        intro y hy
        have : t1 < y := hx1 ▸ hp.1 y hy
        simp only [Bool.and_eq_true, decide_eq_true_eq, not_and]
        intro _
        exact not_le.mpr this
      rw [hrest]
      rfl
    · have hmem' : t1 ∈ rest := by
        rcases List.mem_cons.mp hmem with hcase | hcase
        · exact absurd hcase hx1
        · exact hcase
      have ihres := filter_range_getLast? t0 t1 rest hp.2 hmem' hle
      have hfne : rest.filter (fun x => t0 ≤ x && x ≤ t1) ≠ [] := by
        intro hc
        rw [hc] at ihres
        exact absurd ihres (by simp)
      rw [List.filter_cons]
      split
      · obtain ⟨y, ys, hys⟩ := List.exists_cons_of_ne_nil hfne
        rw [hys, List.getLast?_cons_cons, ← hys]
        exact ihres
      · exact ihres

/-- The last day pair of a window ends at the last element of the list. -/
theorem window_getLast? : ∀ (l : List ℚ) (p : ℚ × ℚ),
    (window l).getLast? = some p → l.getLast? = some p.2
  | [], p, h => absurd h (by rw [window]; simp)
  | [_], p, h => absurd h (by rw [window]; simp)
  | a :: b :: t, p, h => by
    rw [show window (a :: b :: t) = (a, b) :: window (b :: t) from rfl] at h
    cases hw : window (b :: t) with
    | nil =>
      rw [hw] at h
      have ht : t = [] := by
        cases t with
        | nil => rfl
        | cons c t' => exact absurd hw (by rw [window]; exact List.cons_ne_nil _ _)
      have hp : p = (a, b) := by
        rw [List.getLast?] at h
        simp at h
        exact h.symm
      rw [ht, hp]
      rfl
    | cons q ws =>
      rw [hw, List.getLast?_cons_cons, ← hw] at h
      have := window_getLast? (b :: t) p h
      rw [List.getLast?_cons_cons]
      exact this

/-- An empty window means the list has at most one element. -/
theorem window_nil_cases : ∀ (l : List ℚ), window l = [] → l = [] ∨ ∃ x, l = [x]
  | [], _ => Or.inl rfl
  | [a], _ => Or.inr ⟨a, rfl⟩
  | _ :: _ :: _, h => absurd h (List.cons_ne_nil _ _)

/-- Head row length of a nonempty matrix with uniform row lengths. -/
theorem headD_len_of_rows (m : Mat) (g : Nat) (hne : m ≠ [])
    (hrows : ∀ r ∈ m, r.length = g) : (m.headD []).length = g := by
  obtain ⟨h0, t0, rfl⟩ := List.exists_cons_of_ne_nil hne
  rw [List.headD_cons]
  exact hrows h0 (List.mem_cons_self _ _)

/-- A renormalized matrix of known shape passes the DataFrame shape check. -/
theorem rect_of_dims (M : Mat) (g : Nat) (hMl : M.length = g)
    (hMr : ∀ r ∈ M, r.length = g) :
    rectangular (matDiv M (matSum M)) g g = true := by
  rw [rectangular, Bool.and_eq_true]
  constructor
  · rw [matDiv, List.length_map, hMl]
    exact beq_self_eq_true _
  · rw [List.all_eq_true]
    intro r hr
    rw [matDiv, List.mem_map] at hr
    obtain ⟨r', hr', hrr⟩ := hr
    rw [← hrr, List.length_map, hMr r' hr']
    exact beq_self_eq_true _

/-- The contraction of two matrices of matching height and g-length head rows
succeeds and produces a matrix of g rows of g entries. -/
theorem gram_dims (A B : Mat) (g : Nat) (hAB : A.length = B.length)
    (hA : (A.headD []).length = g) (hB : (B.headD []).length = g) :
    ∃ M, gramT A B = some M ∧ M.length = g ∧ ∀ r ∈ M, r.length = g := by
  refine ⟨_, by rw [gramT, if_pos hAB], ?_, ?_⟩
  · rw [List.length_map, List.length_range]
    exact hA
  · intro r hr
    rw [List.mem_map] at hr
    obtain ⟨i, _, hir⟩ := hr
    rw [← hir, List.length_map, List.length_range]
    exact hB

/-- Shape of the running state after folding the hop path: under the
transport model's contract the final state has one row per observation at t1
and one entry per group column. -/
theorem hopState_shape (s : SankeyState) (t0 t1 : ℚ) (ax : Nat)
    (hsort : s.model.timepoints.Pairwise (· < ·))
    (h0 : t0 ∈ s.model.timepoints) (h1 : t1 ∈ s.model.timepoints) (hle : t0 ≤ t1)
    (hlen : s.model.obs_times.length = s.subsets.length)
    (hwf : ∀ r ∈ s.subsets, r.length = s.columns.length)
    (hcon : pushOk s t0 t1) :
    ((dayPairsIn s.model t0 t1).foldl (fun m p => s.model.push m p.1 p.2 ax)
      (endpointDists s t0 t1).1).length = countObs s.model.obs_times t1
    ∧ (∀ r ∈ (dayPairsIn s.model t0 t1).foldl (fun m p => s.model.push m p.1 p.2 ax)
        (endpointDists s t0 t1).1, r.length = s.columns.length) := by
  by_cases hdp : dayPairsIn s.model t0 t1 = []
  · have heq : t0 = t1 := by
      have h0f : t0 ∈ s.model.timepoints.filter (fun x => t0 ≤ x && x ≤ t1) :=
        List.mem_filter.mpr ⟨h0, by simp [hle]⟩
      have h1f : t1 ∈ s.model.timepoints.filter (fun x => t0 ≤ x && x ≤ t1) :=
        List.mem_filter.mpr ⟨h1, by simp [hle]⟩
      rcases window_nil_cases _ hdp with hnil | ⟨x, hx⟩
      · rw [hnil] at h0f
        exact absurd h0f (List.not_mem_nil _)
      · rw [hx] at h0f h1f
        rw [List.mem_singleton.mp h0f, List.mem_singleton.mp h1f]
    rw [hdp, List.foldl_nil]
    constructor
    · show (matDiv (selectRows s.model.obs_times s.subsets t0)
        (matSum (selectRows s.model.obs_times s.subsets t0))).length = _
      rw [matDiv, List.length_map, selectRows_length _ _ _ hlen, heq]
    · intro r hr
      rw [show (endpointDists s t0 t1).1
        = matDiv (selectRows s.model.obs_times s.subsets t0)
          (matSum (selectRows s.model.obs_times s.subsets t0)) from rfl, matDiv,
        List.mem_map] at hr
      obtain ⟨r', hr', hrr⟩ := hr
      rw [← hrr, List.length_map]
      exact hwf r' (selectRows_mem _ _ _ _ hr')
  · have hfold : (dayPairsIn s.model t0 t1).foldl
        (fun m p => s.model.push m p.1 p.2 ax) (endpointDists s t0 t1).1
        = s.model.push ((dayPairsIn s.model t0 t1).dropLast.foldl
            (fun m p => s.model.push m p.1 p.2 ax) (endpointDists s t0 t1).1)
          ((dayPairsIn s.model t0 t1).getLast hdp).1
          ((dayPairsIn s.model t0 t1).getLast hdp).2 ax := by
      conv_lhs => rw [← List.dropLast_concat_getLast hdp]
      rw [List.foldl_append, List.foldl_cons, List.foldl_nil]
    have hpmem : (dayPairsIn s.model t0 t1).getLast hdp ∈ dayPairsIn s.model t0 t1 :=
      List.getLast_mem hdp
    have hp2 : ((dayPairsIn s.model t0 t1).getLast hdp).2 = t1 := by
      have hLast : (dayPairsIn s.model t0 t1).getLast?
          = some ((dayPairsIn s.model t0 t1).getLast hdp) :=
        List.getLast?_eq_getLast _ hdp
      have hwl := window_getLast?
        (s.model.timepoints.filter (fun x => t0 ≤ x && x ≤ t1)) _ hLast
      have hflast := filter_range_getLast? t0 t1 s.model.timepoints hsort h1 hle
      rw [hwl] at hflast
      exact Option.some.injEq _ _ ▸ hflast
    obtain ⟨hlenp, hrowsp⟩ := hcon ((dayPairsIn s.model t0 t1).dropLast.foldl
      (fun m p => s.model.push m p.1 p.2 ax) (endpointDists s t0 t1).1) ax
      ((dayPairsIn s.model t0 t1).getLast hdp) hpmem
    rw [hfold]
    exact ⟨by rw [hlenp, hp2], hrowsp⟩

/-- C4 (amended): calculate_flows performs no range validation and never
raises an InvalidRangeError (no such error exists in the code); under the
documented precondition (t0 <= t1, both present on a strictly sorted time
axis) and the transport model's shape contract it succeeds. -/
theorem c4_amended (s : SankeyState) (t0 t1 : ℚ)
    (hsort : s.model.timepoints.Pairwise (· < ·))
    (h0 : t0 ∈ s.model.timepoints) (h1 : t1 ∈ s.model.timepoints) (hle : t0 ≤ t1)
    (hlen : s.model.obs_times.length = s.subsets.length)
    (hwf : ∀ r ∈ s.subsets, r.length = s.columns.length)
    (hcon : pushOk s t0 t1)
    (hn1 : 0 < countObs s.model.obs_times t1) :
    ∃ tbl s', calculate_flows s t0 t1 = .ok (tbl, s') := by
  obtain ⟨hOlen, hOrows⟩ := hopState_shape s t0 t1 1 hsort h0 h1 hle hlen hwf hcon
  obtain ⟨hIlen, hIrows⟩ := hopState_shape s t0 t1 0 hsort h0 h1 hle hlen hwf hcon
  have hs1len : (endpointDists s t0 t1).2.length = countObs s.model.obs_times t1 := by
    show (matDiv (selectRows s.model.obs_times s.subsets t1)
      (matSum (selectRows s.model.obs_times s.subsets t1))).length = _
    rw [matDiv, List.length_map, selectRows_length _ _ _ hlen]
  have hs1rows : ∀ r ∈ (endpointDists s t0 t1).2, r.length = s.columns.length := by
    intro r hr
    rw [show (endpointDists s t0 t1).2
      = matDiv (selectRows s.model.obs_times s.subsets t1)
        (matSum (selectRows s.model.obs_times s.subsets t1)) from rfl, matDiv,
      List.mem_map] at hr
    obtain ⟨r', hr', hrr⟩ := hr
    rw [← hrr, List.length_map]
    exact hwf r' (selectRows_mem _ _ _ _ hr')
  have hs1ne : (endpointDists s t0 t1).2 ≠ [] :=
    List.length_pos.mp (by rw [hs1len]; exact hn1)
  have hs1head := headD_len_of_rows _ _ hs1ne hs1rows
  have hOne : ((dayPairsIn s.model t0 t1).foldl (fun m p => s.model.push m p.1 p.2 1)
      (endpointDists s t0 t1).1) ≠ [] :=
    List.length_pos.mp (by rw [hOlen]; exact hn1)
  have hIne : ((dayPairsIn s.model t0 t1).foldl (fun m p => s.model.push m p.1 p.2 0)
      (endpointDists s t0 t1).1) ≠ [] :=
    List.length_pos.mp (by rw [hIlen]; exact hn1)
  have hOhead := headD_len_of_rows _ _ hOne hOrows
  have hIhead := headD_len_of_rows _ _ hIne hIrows
  obtain ⟨MO, hMO, hMOl, hMOr⟩ := gram_dims _ _ s.columns.length
    (by rw [hOlen, hs1len]) hOhead hs1head
  obtain ⟨MI, hMI, hMIl, hMIr⟩ := gram_dims _ _ s.columns.length
    (by rw [hIlen, hs1len]) hIhead hs1head
  have hrectO := rect_of_dims MO s.columns.length hMOl hMOr
  have hrectI := rect_of_dims MI s.columns.length hMIl hMIr
  have hrawO : rawOut s t0 t1 = some MO := hMO
  have hrawI : rawIn s t0 t1 = some MI := hMI
  refine ⟨flowMerge s MO MI, updCache s t0 t1 (flowMerge s MO MI), ?_⟩
  unfold calculate_flows
  rw [hrawO, hrawI]
  show (if (rectangular (matDiv MO (matSum MO)) s.columns.length s.columns.length
      && rectangular (matDiv MI (matSum MI)) s.columns.length s.columns.length) = true then
      Except.ok (flowMerge s MO MI, updCache s t0 t1 (flowMerge s MO MI))
    else Except.error FlowError.shapeMismatch)
    = Except.ok (flowMerge s MO MI, updCache s t0 t1 (flowMerge s MO MI))
  rw [if_pos (by rw [hrectO, hrectI]; rfl)]

/-- C4: with t0 = 1 > t1 = 0, both valid time points of the concrete model,
calculate_flows does not fail — it silently returns an unvalidated table
(here [("A","A",1,1)]): no InvalidRangeError is raised. -/
theorem c4_counterexample :
    ((1 : ℚ) ∈ sankeyD.model.timepoints ∧ (0 : ℚ) ∈ sankeyD.model.timepoints
      ∧ (0 : ℚ) < 1)
    ∧ (calculate_flows sankeyD 1 0).toOption.map Prod.fst
        = some [{ source := "A", target := "A", outflow := F.q 1, inflow := F.q 1 }] := by
  constructor
  · refine ⟨by with_unfolding_all decide, by with_unfolding_all decide,
      by with_unfolding_all decide⟩
  · with_unfolding_all rfl

/-- Witness for C4 (amended): the precondition holds on the contract-obeying
concrete model and the call succeeds. -/
theorem c4_amended_witness : ∃ tbl s', calculate_flows sankeyW 0 1 = .ok (tbl, s') := by
  refine c4_amended sankeyW 0 1 ?_ ?_ ?_ ?_ ?_ ?_ ?_ ?_
  · with_unfolding_all decide
  · with_unfolding_all decide
  · with_unfolding_all decide
  · with_unfolding_all decide
  · with_unfolding_all decide
  · with_unfolding_all decide
  · intro m ax p hp
    have hdp : dayPairsIn sankeyW.model 0 1 = [(0, 1)] := by
      with_unfolding_all rfl
    rw [hdp] at hp
    rw [List.mem_singleton.mp hp]
    constructor
    · show ([[F.q 1]] : Mat).length = countObs sankeyW.model.obs_times 1
      with_unfolding_all rfl
    · intro r hr
      rw [List.mem_singleton.mp hr]
      rfl
  · with_unfolding_all decide

/-- Folding numpy addition over finite values adds the payloads. -/
theorem foldl_add_q : ∀ (l : List F) (c : ℚ), (∀ v ∈ l, ∃ a : ℚ, v = F.q a) →
    l.foldl F.add (F.q c) = F.q (c + (l.map F.toQ).sum)
  | [], c, _ => by rw [List.foldl_nil, List.map_nil, List.sum_nil, add_zero]
  | v :: l, c, h => by
    obtain ⟨a, ha⟩ := h v (List.mem_cons_self v l)
    rw [List.foldl_cons, ha]
    rw [show F.add (F.q c) (F.q a) = F.q (c + a) from rfl]
    rw [foldl_add_q l (c + a) (fun x hx => h x (List.mem_cons_of_mem v hx))]
    rw [List.map_cons, List.sum_cons]
    rw [show F.toQ (F.q a) = a from rfl, add_assoc]

/-- numpy sum of finite values is the rational sum of the payloads. -/
theorem npSum_q_of_all (l : List F) (h : ∀ v ∈ l, ∃ a : ℚ, v = F.q a) :
    npSum l = F.q ((l.map F.toQ).sum) := by
  rw [npSum, foldl_add_q l 0 h, zero_add]

/-- Once the accumulator is NaN or infinite, a numpy fold never becomes
finite again. -/
theorem foldl_add_nonfinite : ∀ (l : List F) (acc : F),
    (acc = F.nan ∨ ∃ t, acc = F.inf t) →
    (l.foldl F.add acc = F.nan ∨ ∃ t, l.foldl F.add acc = F.inf t)
  | [], _, h => h
  | v :: l, acc, h => by
    rw [List.foldl_cons]
    rcases h with hn | ⟨t, ht⟩
    · rw [hn, show F.add F.nan v = F.nan by cases v <;> rfl]
      exact foldl_add_nonfinite l F.nan (Or.inl rfl)
    · rw [ht]
      cases v with
      | nan => exact foldl_add_nonfinite l _ (Or.inl rfl)
      | inf u =>
        by_cases htu : t = u
        · refine foldl_add_nonfinite l _ (Or.inr ⟨t, ?_⟩)
          rw [F.add, if_pos htu]
        · refine foldl_add_nonfinite l _ (Or.inl ?_)
          rw [F.add, if_neg htu]
      | q a => exact foldl_add_nonfinite l _ (Or.inr ⟨t, rfl⟩)

/-- A finite numpy sum forces every summand to be finite. -/
theorem all_q_of_foldl : ∀ (l : List F) (c x : ℚ),
    l.foldl F.add (F.q c) = F.q x → ∀ v ∈ l, ∃ a : ℚ, v = F.q a
  | [], _, _, _, v, hv => absurd hv (List.not_mem_nil _)
  | v :: l, c, x, h, w, hw => by
    rw [List.foldl_cons] at h
    cases v with
    | nan =>
      rw [show F.add (F.q c) F.nan = F.nan from rfl] at h
      rw [foldl_add_nan l] at h
      exact absurd h (by simp)
    | inf t =>
      rw [show F.add (F.q c) (F.inf t) = F.inf t from rfl] at h
      rcases foldl_add_nonfinite l (F.inf t) (Or.inr ⟨t, rfl⟩) with hn | ⟨u, hu⟩
      · rw [hn] at h
        exact absurd h (by simp)
      · rw [hu] at h
        exact absurd h (by simp)
    | q a =>
      rcases List.mem_cons.mp hw with hcase | hcase
      · exact ⟨a, hcase⟩
      · rw [show F.add (F.q c) (F.q a) = F.q (c + a) from rfl] at h
        exact all_q_of_foldl l (c + a) x h w hcase

/-- A finite numpy sum forces every summand to be finite. -/
theorem all_q_of_npSum (l : List F) (x : ℚ) (h : npSum l = F.q x) :
    ∀ v ∈ l, ∃ a : ℚ, v = F.q a :=
  all_q_of_foldl l 0 x h

/-- A finite matrix total forces every matrix entry to be finite, and equals
the sum of the row sums of the payloads. -/
theorem matSum_q_elim (M : Mat) (x : ℚ) (h : matSum M = F.q x) :
    (∀ r ∈ M, ∀ v ∈ r, ∃ a : ℚ, v = F.q a)
    ∧ (M.map (fun row => ((row.map F.toQ).sum))).sum = x := by
  have hrows := all_q_of_npSum _ _ h
  have hfin : ∀ r ∈ M, ∀ v ∈ r, ∃ a : ℚ, v = F.q a := by
    intro r hr v hv
    obtain ⟨a, ha⟩ := hrows (npSum r) (List.mem_map_of_mem npSum hr)
    exact all_q_of_npSum r a ha v hv
  refine ⟨hfin, ?_⟩
  rw [matSum, npSum_q_of_all _ hrows, F.q.injEq] at h
  rw [← h, List.map_map]
  congr 1
  apply List.map_congr_left
  intro r hr
  rw [Function.comp_apply, npSum_q_of_all r (hfin r hr)]
  rfl

/-- Pointwise sums split. -/
theorem qsum_map_add {β : Type} : ∀ (l : List β) (f g : β → ℚ),
    (l.map (fun b => f b + g b)).sum = (l.map f).sum + (l.map g).sum
  | [], _, _ => by simp
  | b :: l, f, g => by
    rw [List.map_cons, List.sum_cons, List.map_cons, List.sum_cons,
      List.map_cons, List.sum_cons, qsum_map_add l f g]
    ring

/-- Zero summands give a zero sum. -/
theorem qsum_zero {β : Type} : ∀ (l : List β), (l.map (fun _ => (0 : ℚ))).sum = 0
  | [] => rfl
  | b :: l => by rw [List.map_cons, List.sum_cons, qsum_zero l, add_zero]

/-- A finite double sum of rationals can be computed in either order. -/
theorem qsum_comm {β γ : Type} : ∀ (l1 : List β) (l2 : List γ) (f : β → γ → ℚ),
    (l1.map (fun b => (l2.map (f b)).sum)).sum
      = (l2.map (fun c => (l1.map (fun b => f b c)).sum)).sum
  | [], l2, f => by
    rw [List.map_nil, List.sum_nil]
    rw [show (l2.map (fun c => (([] : List β).map (fun b => f b c)).sum))
      = l2.map (fun _ => (0 : ℚ)) from rfl]
    rw [qsum_zero l2]
  | b :: l1, l2, f => by
    rw [List.map_cons, List.sum_cons, qsum_comm l1 l2 f]
    rw [show (l2.map (fun c => ((b :: l1).map (fun x => f x c)).sum))
      = l2.map (fun c => f b c + (l1.map (fun x => f x c)).sum) from rfl]
    rw [qsum_map_add l2 (fun c => f b c) (fun c => (l1.map (fun x => f x c)).sum)]

/-- Dividing all summands divides the sum. -/
theorem qsum_map_div : ∀ (l : List ℚ) (x : ℚ),
    (l.map (fun a => a / x)).sum = l.sum / x
  | [], x => by simp
  | a :: l, x => by
    rw [List.map_cons, List.sum_cons, List.sum_cons, qsum_map_div l x, add_div]

/-- Mapping an index-based access over an enumeration of the same length
recovers a plain map. -/
theorem enum_getD_map {α β : Type} (d : α) (f : α → β) :
    ∀ (l : List String) (m : List α), m.length = l.length →
    l.enum.map (fun si => f (m.getD si.1 d)) = m.map f
  | [], [], _ => rfl
  | [], _ :: _, h => absurd h (by simp)
  | _ :: _, [], h => absurd h (by simp)
  | a :: l, b :: m, h => by
    have h' : m.length = l.length := by
      rw [List.length_cons, List.length_cons] at h
      exact Nat.succ.inj h
    rw [List.enum_cons', List.map_cons, List.getD_cons_zero, List.map_cons,
      List.map_map]
    rw [show ((fun si : Nat × String => f ((b :: m).getD si.1 d))
        ∘ Prod.map (· + 1) id) = (fun si : Nat × String => f (m.getD si.1 d)) from rfl]
    rw [enum_getD_map d f l m h']

/-- The melted values of a finite rectangular matrix sum to the matrix
total. -/
theorem formatFlow_sum (m : Mat) (srcs tgts : List String)
    (hlen : m.length = srcs.length) (hrows : ∀ r ∈ m, r.length = tgts.length)
    (hfin : ∀ r ∈ m, ∀ v ∈ r, ∃ a : ℚ, v = F.q a) :
    npSum ((formatFlow m srcs tgts).map (fun a => a.2.2))
      = F.q ((m.map (fun row => ((row.map F.toQ).sum))).sum) := by
  have hvals : ∀ v ∈ (formatFlow m srcs tgts).map (fun a => a.2.2),
      ∃ a : ℚ, v = F.q a := by
    intro v hv
    rw [List.mem_map] at hv
    obtain ⟨a, ha, hav⟩ := hv
    rw [formatFlow, List.mem_flatten] at ha
    obtain ⟨L', hL', haL'⟩ := ha
    rw [List.mem_map] at hL'
    obtain ⟨tj, htj, hLt⟩ := hL'
    rw [← hLt, List.mem_map] at haL'
    obtain ⟨si, hsi, hasi⟩ := haL'
    rw [← hav, ← hasi]
    show ∃ b : ℚ, (m.getD si.1 []).getD tj.1 (F.q 0) = F.q b
    have hi : si.1 < m.length := by
      rw [hlen]
      exact enum_fst_lt srcs si hsi
    have hrow := getD_mem m si.1 [] hi
    have hj : tj.1 < (m.getD si.1 []).length := by
      rw [hrows _ hrow]
      exact enum_fst_lt tgts tj htj
    exact hfin _ hrow _ (getD_mem _ tj.1 (F.q 0) hj)
  rw [npSum_q_of_all _ hvals, F.q.injEq]
  rw [formatFlow, List.map_map, List.map_flatten, List.sum_flatten, List.map_map]
  rw [List.map_map]
  have hinner : ∀ tj ∈ tgts.enum, ((List.sum ∘ List.map
        (F.toQ ∘ fun a : String × String × F => a.2.2)) ∘ (fun tj => List.map
        (fun si => (si.2, tj.2, (List.getD m si.1 []).getD tj.1 (F.q 0))) srcs.enum)) tj
      = (m.map (fun row => F.toQ (row.getD tj.1 (F.q 0)))).sum := by
    intro tj _
    have hmm : (srcs.enum.map (fun si =>
        (si.2, tj.2, (m.getD si.1 []).getD tj.1 (F.q 0)))).map
          (F.toQ ∘ fun a : String × String × F => a.2.2)
        = m.map (fun row => F.toQ (row.getD tj.1 (F.q 0))) := by
      rw [List.map_map]
      exact enum_getD_map [] (fun row => F.toQ (row.getD tj.1 (F.q 0))) srcs m hlen
    exact congrArg List.sum hmm
  rw [List.map_congr_left hinner]
  rw [qsum_comm tgts.enum m (fun tj row => F.toQ (row.getD tj.1 (F.q 0)))]
  have hrowsum : ∀ row ∈ m, (tgts.enum.map (fun tj => F.toQ (row.getD tj.1 (F.q 0)))).sum
      = (row.map F.toQ).sum := fun row hr =>
    congrArg List.sum (enum_getD_map (F.q 0) F.toQ tgts row (hrows row hr))
  rw [List.map_congr_left hrowsum]

/-- Melting a matrix renormalized by its own (finite, nonzero) total yields
values summing to exactly 1. -/
theorem normalized_format_sum (M : Mat) (x : ℚ) (hx : matSum M = F.q x) (hx0 : x ≠ 0)
    (srcs tgts : List String)
    (hlen : (matDiv M (matSum M)).length = srcs.length)
    (hrows : ∀ r ∈ matDiv M (matSum M), r.length = tgts.length) :
    npSum ((formatFlow (matDiv M (matSum M)) srcs tgts).map (fun a => a.2.2)) = F.q 1 := by
  obtain ⟨hfinM, hsum⟩ := matSum_q_elim M x hx
  rw [hx] at hlen hrows ⊢
  have hfin' : ∀ r ∈ matDiv M (F.q x), ∀ v ∈ r, ∃ a : ℚ, v = F.q a := by
    intro r hr v hv
    rw [matDiv, List.mem_map] at hr
    obtain ⟨r', hr', hrr⟩ := hr
    rw [← hrr, List.mem_map] at hv
    obtain ⟨v', hv', hvv⟩ := hv
    obtain ⟨a, ha⟩ := hfinM r' hr' v' hv'
    rw [← hvv, ha]
    refine ⟨a / x, ?_⟩
    show F.div (F.q a) (F.q x) = F.q (a / x)
    simp [F.div, hx0]
  rw [formatFlow_sum _ srcs tgts hlen hrows hfin', F.q.injEq]
  rw [matDiv, List.map_map]
  have hpt : ∀ row ∈ M, ((row.map (fun v => F.div v (F.q x))).map F.toQ).sum
      = (row.map F.toQ).sum / x := by
    intro row hrowm
    rw [List.map_map]
    have hcongr : row.map (F.toQ ∘ fun v => F.div v (F.q x))
        = row.map (fun v => F.toQ v / x) := by
      apply List.map_congr_left
      intro v hv
      obtain ⟨a, ha⟩ := hfinM row hrowm v hv
      rw [Function.comp_apply, ha]
      show F.toQ (F.div (F.q a) (F.q x)) = F.toQ (F.q a) / x
      rw [show F.div (F.q a) (F.q x) = F.q (a / x) by simp [F.div, hx0]]
      rfl
    rw [hcongr]
    rw [show row.map (fun v => F.toQ v / x) = (row.map F.toQ).map (fun a => a / x) by
      rw [List.map_map]
      rfl]
    exact qsum_map_div _ x
  have hmapeq : M.map ((fun row => (List.map F.toQ row).sum)
        ∘ (fun row => row.map (fun v => F.div v (F.q x))))
      = M.map (fun row => (row.map F.toQ).sum / x) :=
    List.map_congr_left (fun row hr => by
      rw [Function.comp_apply]
      exact hpt row hr)
  rw [hmapeq]
  rw [show M.map (fun row => (row.map F.toQ).sum / x)
      = (M.map (fun row => (row.map F.toQ).sum)).map (fun a => a / x) by
    rw [List.map_map]
    rfl]
  rw [qsum_map_div, hsum, div_self hx0]

/-- Looking up a key different from the head key skips the head. -/
theorem lookupFlow_cons_ne (b : String × String × F) (R : List (String × String × F))
    (a1 a2 : String) (h : ¬(b.1 = a1 ∧ b.2.1 = a2)) :
    lookupFlow (b :: R) a1 a2 = lookupFlow R a1 a2 := by
  rw [lookupFlow, lookupFlow, List.find?_cons_of_neg]
  intro hc
  rw [Bool.and_eq_true, beq_iff_eq, beq_iff_eq] at hc
  exact h hc

/-- With identical duplicate-free key sequences, the merge pairs rows
positionally: the inflow column is the right table's value column. -/
theorem mergeFlows_map_inflow : ∀ (L R : List (String × String × F)),
    L.map (fun a => (a.1, a.2.1)) = R.map (fun a => (a.1, a.2.1)) →
    (R.map (fun a => (a.1, a.2.1))).Nodup →
    (mergeFlows L R).map (fun r => r.inflow) = R.map (fun a => a.2.2)
  | [], [], _, _ => rfl
  | [], b :: R, hk, _ => absurd hk (by simp)
  | a :: L, [], hk, _ => absurd hk (by simp)
  | a :: L, b :: R, hk, hnd => by
    rw [List.map_cons, List.map_cons, List.cons.injEq] at hk
    rw [List.map_cons, List.nodup_cons] at hnd
    have hheadkey : b.1 = a.1 ∧ b.2.1 = a.2.1 := by
      have := hk.1
      rw [Prod.mk.injEq] at this
      exact ⟨this.1.symm, this.2.symm⟩
    have hlook : lookupFlow (b :: R) a.1 a.2.1 = some b.2.2 := by
      rw [lookupFlow, List.find?_cons_of_pos]
      · rfl
      · rw [Bool.and_eq_true, beq_iff_eq, beq_iff_eq]
        exact hheadkey
    rw [mergeFlows, List.filterMap_cons, hlook]
    simp only [Option.map_some']
    rw [List.map_cons]
    have hskip : mergeFlows L (b :: R) = mergeFlows L R := by
      rw [mergeFlows, mergeFlows]
      apply List.filterMap_congr
      intro a' ha'
      have hka' : (a'.1, a'.2.1) ∈ R.map (fun c => (c.1, c.2.1)) := by
        rw [← hk.2]
        exact List.mem_map_of_mem _ ha'
      have hne : ¬(b.1 = a'.1 ∧ b.2.1 = a'.2.1) := by
        intro hc
        apply hnd.1
        have : (b.1, b.2.1) = (a'.1, a'.2.1) := by
          rw [hc.1, hc.2]
        rw [this]
        exact hka'
      rw [lookupFlow_cons_ne b R a'.1 a'.2.1 hne]
    show FlowRow.inflow { source := a.1, target := a.2.1, outflow := a.2.2, inflow := b.2.2 }
        :: (mergeFlows L (b :: R)).map (fun r => r.inflow) = b.2.2 :: R.map (fun c => c.2.2)
    rw [hskip, mergeFlows_map_inflow L R hk.2 hnd.2]

/-- The cross product of duplicate-free label lists has no duplicate keys. -/
theorem crossPairs_nodup : ∀ (srcs tgts : List String), srcs.Nodup → tgts.Nodup →
    (crossPairs srcs tgts).Nodup
  | srcs, [], _, _ => List.Pairwise.nil
  | srcs, t :: tgts, hs, ht => by
    rw [List.nodup_cons] at ht
    show ((srcs.map (fun a => (a, t))) ++ crossPairs srcs tgts).Nodup
    rw [List.nodup_append]
    refine ⟨hs.map (fun a b hab => (Prod.mk.injEq _ _ _ _ ▸ hab : _ ∧ _).1), ?_, ?_⟩
    · exact crossPairs_nodup srcs tgts hs ht.2
    · intro p hp hp2
      rw [List.mem_map] at hp
      obtain ⟨a, _, hap⟩ := hp
      unfold crossPairs at hp2
      rw [List.mem_flatten] at hp2
      obtain ⟨L', hL', hpL'⟩ := hp2
      rw [List.mem_map] at hL'
      obtain ⟨t', ht', hLt'⟩ := hL'
      rw [← hLt', List.mem_map] at hpL'
      obtain ⟨a', _, hap'⟩ := hpL'
      apply ht.1
      have : t = t' := by
        have h1 : p.2 = t := by rw [← hap]
        have h2 : p.2 = t' := by rw [← hap']
        rw [← h1, h2]
      rw [this]
      exact ht'

/-- Shape facts extracted from a passed DataFrame shape check. -/
theorem rect_elim (m : Mat) (a b : Nat) (h : rectangular m a b = true) :
    m.length = a ∧ ∀ r ∈ m, r.length = b := by
  rw [rectangular, Bool.and_eq_true] at h
  refine ⟨beq_iff_eq.mp h.1, ?_⟩
  intro r hr
  rw [List.all_eq_true] at h
  exact beq_iff_eq.mp (h.2 r hr)

/-- C7: when both raw contraction matrices have finite nonzero totals, the
outflow column of the returned flow table sums to exactly 1 over the full
cross product, and so does the inflow column. -/
theorem c7_columns_sum_to_one (s : SankeyState) (t0 t1 : ℚ) (tbl : FlowTable)
    (s' : SankeyState) (MO MI : Mat) (x y : ℚ)
    (h : calculate_flows s t0 t1 = .ok (tbl, s'))
    (hMO : rawOut s t0 t1 = some MO) (hx : matSum MO = F.q x) (hx0 : x ≠ 0)
    (hMI : rawIn s t0 t1 = some MI) (hy : matSum MI = F.q y) (hy0 : y ≠ 0)
    (hnd : s.columns.Nodup) :
    npSum (tbl.map (fun r => r.outflow)) = F.q 1
    ∧ npSum (tbl.map (fun r => r.inflow)) = F.q 1 := by
  unfold calculate_flows at h
  rw [hMO, hMI] at h
  have h' : (if (rectangular (matDiv MO (matSum MO)) s.columns.length s.columns.length
      && rectangular (matDiv MI (matSum MI)) s.columns.length s.columns.length) = true then
      Except.ok (flowMerge s MO MI, updCache s t0 t1 (flowMerge s MO MI))
    else Except.error FlowError.shapeMismatch) = Except.ok (tbl, s') := h
  split at h'
  · rename_i hrect
    rw [Bool.and_eq_true] at hrect
    obtain ⟨hlenO, hrowsO⟩ := rect_elim _ _ _ hrect.1
    obtain ⟨hlenI, hrowsI⟩ := rect_elim _ _ _ hrect.2
    rw [Except.ok.injEq, Prod.mk.injEq] at h'
    have htbl : tbl = flowMerge s MO MI := h'.1.symm
    have hkeysL := formatFlow_keys (matDiv MO (matSum MO)) s.columns s.columns
    have hkeysR := formatFlow_keys (matDiv MI (matSum MI)) s.columns s.columns
    have hlk : ∀ a ∈ formatFlow (matDiv MO (matSum MO)) s.columns s.columns,
        (lookupFlow (formatFlow (matDiv MI (matSum MI)) s.columns s.columns)
          a.1 a.2.1).isSome := by
      intro a hmem
      apply lookupFlow_isSome_of_mem_keys
      rw [hkeysR, ← hkeysL]
      exact List.mem_map_of_mem _ hmem
    constructor
    · have houtcol : tbl.map (fun r => r.outflow)
          = (formatFlow (matDiv MO (matSum MO)) s.columns s.columns).map
            (fun a => a.2.2) := by
        rw [htbl, flowMerge]
        have hmm := mergeFlows_map_left
          (formatFlow (matDiv MO (matSum MO)) s.columns s.columns)
          (formatFlow (matDiv MI (matSum MI)) s.columns s.columns) hlk
        have hcomp : (mergeFlows (formatFlow (matDiv MO (matSum MO)) s.columns s.columns)
            (formatFlow (matDiv MI (matSum MI)) s.columns s.columns)).map
              (fun r => r.outflow)
            = ((mergeFlows (formatFlow (matDiv MO (matSum MO)) s.columns s.columns)
              (formatFlow (matDiv MI (matSum MI)) s.columns s.columns)).map
                (fun r => (r.source, r.target, r.outflow))).map (fun z => z.2.2) := by
          rw [List.map_map]
          rfl
        rw [hcomp, hmm]
      rw [houtcol]
      exact normalized_format_sum MO x hx hx0 s.columns s.columns hlenO hrowsO
    · have hincol : tbl.map (fun r => r.inflow)
          = (formatFlow (matDiv MI (matSum MI)) s.columns s.columns).map
            (fun a => a.2.2) := by
        rw [htbl, flowMerge]
        exact mergeFlows_map_inflow _ _ (hkeysL.trans hkeysR.symm)
          (by rw [hkeysR]; exact crossPairs_nodup s.columns s.columns hnd hnd)
      rw [hincol]
      exact normalized_format_sum MI y hy hy0 s.columns s.columns hlenI hrowsI
  · exact absurd h' (by simp)

/-- Witness for C7 at the concrete one-hot self-span. -/
theorem c7_columns_sum_to_one_witness :
    npSum (tblA.map (fun r => r.outflow)) = F.q 1
    ∧ npSum (tblA.map (fun r => r.inflow)) = F.q 1 :=
  c7_columns_sum_to_one sankeyA 0 0 tblA stateA
    [[F.q (1/4), F.q 0], [F.q 0, F.q (1/4)]] [[F.q (1/4), F.q 0], [F.q 0, F.q (1/4)]]
    (1/2) (1/2)
    (by with_unfolding_all rfl) (by with_unfolding_all rfl)
    (by with_unfolding_all rfl) (by norm_num)
    (by with_unfolding_all rfl) (by with_unfolding_all rfl) (by norm_num)
    (by decide)

/-- A NaN accumulator poisons the whole entropy-layer fold. -/
theorem foldl_reAdd_nan : ∀ (l : List RE), l.foldl RE.add RE.nan = RE.nan
  | [] => rfl
  | e :: l => by
    rw [List.foldl_cons]
    rw [show RE.add RE.nan e = RE.nan by cases e <;> rfl]
    exact foldl_reAdd_nan l

/-- A NaN member poisons an entropy-layer numpy sum. -/
theorem reSum_nan_mem : ∀ (l : List RE) (acc : RE), RE.nan ∈ l →
    l.foldl RE.add acc = RE.nan
  | [], _, h => absurd h (List.not_mem_nil _)
  | e :: l, acc, h => by
    rw [List.foldl_cons]
    rcases List.mem_cons.mp h with he | he
    · rw [← he]
      rw [show RE.add acc RE.nan = RE.nan by cases acc <;> rfl]
      exact foldl_reAdd_nan l
    · exact reSum_nan_mem l (RE.add acc e) he

/-- Dividing the float 0 by anything and multiplying by its log is NaN. -/
theorem xlogx_div_zero : ∀ (s : F), xlogx (F.div (F.q 0) s) = RE.nan := by
  intro s
  cases s with
  | nan => rfl
  | inf t =>
    show xlogx (F.q 0) = RE.nan
    rw [xlogx, if_pos rfl]
  | q b =>
    by_cases hb : b = 0
    · rw [show F.div (F.q 0) (F.q b) = F.nan by rw [F.div, if_pos hb, if_pos rfl]]
      rfl
    · rw [show F.div (F.q 0) (F.q b) = F.q (0 / b) by rw [F.div, if_neg hb]]
      rw [xlogx, if_pos (zero_div b)]

/-- Folding entropy-layer addition over finite values adds the payloads. -/
theorem foldl_reAdd_r : ∀ (l : List RE) (c : ℝ), (∀ e ∈ l, ∃ a : ℝ, e = RE.r a) →
    l.foldl RE.add (RE.r c) = RE.r (c + (l.map RE.toR).sum)
  | [], c, _ => by rw [List.foldl_nil, List.map_nil, List.sum_nil, add_zero]
  | e :: l, c, h => by
    obtain ⟨a, ha⟩ := h e (List.mem_cons_self e l)
    rw [List.foldl_cons, ha]
    rw [show RE.add (RE.r c) (RE.r a) = RE.r (c + a) from rfl]
    rw [foldl_reAdd_r l (c + a) (fun x hx => h x (List.mem_cons_of_mem e hx))]
    rw [List.map_cons, List.sum_cons]
    rw [show RE.toR (RE.r a) = a from rfl, add_assoc]

/-- An all-finite entropy-layer sum is the real sum of the payloads. -/
theorem reSum_r_of_all (l : List RE) (h : ∀ e ∈ l, ∃ a : ℝ, e = RE.r a) :
    reSum l = RE.r ((l.map RE.toR).sum) := by
  rw [reSum, foldl_reAdd_r l 0 h, zero_add]

/-- Negating a finite entropy value. -/
theorem RE.neg_r (a : ℝ) : RE.neg (RE.r a) = RE.r (-a) := rfl

/-- C3 (amended): a group with zero mass contributes zero to the weighted
sum only because np.nansum drops the NaN term; the 0 * ln 0 = 0 convention is
NOT implemented: any conditional distribution containing a float zero
evaluates to NaN (so its group's whole contribution is dropped), and only
strictly positive distributions yield the spec's Shannon entropy. -/
theorem c3_amended :
    (∀ x : List F, F.q 0 ∈ x → calculate_entropy x = RE.nan)
    ∧ (∀ (e : RE) (l : List RE), e.isNan = true → reNanSum (e :: l) = reNanSum l)
    ∧ (∀ x : List F, (∀ v ∈ x, ∃ a : ℚ, v = F.q a ∧ 0 < a) →
        calculate_entropy x = RE.r (specEntropy (x.map F.toQ))) := by
  refine ⟨?_, ?_, ?_⟩
  · intro x hx
    show RE.neg (reSum ((x.map (fun v => F.div v (pdSum x))).map xlogx)) = RE.nan
    have hmem : RE.nan ∈ (x.map (fun v => F.div v (pdSum x))).map xlogx := by
      rw [List.mem_map]
      refine ⟨F.div (F.q 0) (pdSum x), ?_, xlogx_div_zero _⟩
      rw [List.mem_map]
      exact ⟨F.q 0, hx, rfl⟩
    rw [reSum, reSum_nan_mem _ _ hmem]
    rfl
  · intro e l h
    rw [reNanSum, reNanSum, List.filter_cons, if_neg (by simp [h])]
  · intro x hx
    cases x with
    | nil => rfl
    | cons v0 xs =>
      have hfilter : (v0 :: xs).filter (fun v => !v.isNan) = v0 :: xs := by
        rw [List.filter_eq_self]
        intro v hv
        obtain ⟨a, ha, _⟩ := hx v hv
        rw [ha]
        rfl
      have hT : pdSum (v0 :: xs) = F.q (((v0 :: xs).map F.toQ).sum) := by
        rw [pdSum, hfilter]
        exact npSum_q_of_all _ (fun v hv => ⟨F.toQ v, by
          obtain ⟨a, ha, _⟩ := hx v hv
          rw [ha]
          rfl⟩)
      set T := ((v0 :: xs).map F.toQ).sum with hTdef
      have hTpos : 0 < T := by
        apply List.sum_pos
        · intro a ha'
          rw [List.mem_map] at ha'
          obtain ⟨v, hv, hva⟩ := ha'
          obtain ⟨b, hb, hbpos⟩ := hx v hv
          rw [← hva, hb]
          exact hbpos
        · simp
      have hT0 : T ≠ 0 := ne_of_gt hTpos
      have hptwise : ∀ v ∈ v0 :: xs, xlogx (F.div v (pdSum (v0 :: xs)))
          = RE.r (xlogZero ((F.toQ v / T : ℚ) : ℝ)) := by
        intro v hv
        obtain ⟨a, ha, hapos⟩ := hx v hv
        rw [ha, hT]
        rw [show F.div (F.q a) (F.q T) = F.q (a / T) by simp [F.div, hT0]]
        have hdivpos : 0 < a / T := div_pos hapos hTpos
        rw [xlogx, if_neg (ne_of_gt hdivpos), if_neg (not_lt.mpr (le_of_lt hdivpos))]
        rw [show F.toQ (F.q a) = a from rfl]
        rw [xlogZero, if_neg (by
          intro hc
          rw [Rat.cast_eq_zero] at hc
          exact ne_of_gt hdivpos hc)]
      show RE.neg (reSum (((v0 :: xs).map
        (fun v => F.div v (pdSum (v0 :: xs)))).map xlogx)) = _
      have hmapeq : ((v0 :: xs).map (fun v => F.div v (pdSum (v0 :: xs)))).map xlogx
          = (v0 :: xs).map (fun v => RE.r (xlogZero ((F.toQ v / T : ℚ) : ℝ))) := by
        rw [List.map_map]
        exact List.map_congr_left (fun v hv => hptwise v hv)
      rw [hmapeq]
      rw [reSum_r_of_all _ (by
        intro e he
        rw [List.mem_map] at he
        obtain ⟨v, _, hve⟩ := he
        exact ⟨_, hve.symm⟩)]
      rw [RE.neg_r, RE.r.injEq, specEntropy]
      rw [List.map_map, List.map_map]
      rfl

/-- C3: the conditional distribution (1/4, 1/4, 0) — renormalized
(1/2, 1/2, 0) — has finite spec entropy ln 2 under the 0 ln 0 = 0
convention, but _calculate_entropy returns NaN on it: the convention is not
implemented, so such a group is dropped (contributes 0, not its weighted
finite entropy) by the nan-aware outer sum. -/
theorem c3_counterexample :
    calculate_entropy [F.q (1/4), F.q (1/4), F.q 0] = RE.nan
    ∧ specEntropy [1/4, 1/4, 0] = Real.log 2
    ∧ RE.nan ≠ RE.r (specEntropy [1/4, 1/4, 0]) := by
  refine ⟨by with_unfolding_all rfl, ?_, fun h => RE.noConfusion h⟩
  have hsum : ([1/4, 1/4, 0] : List ℚ).sum = 1/2 := by
    norm_num
  rw [specEntropy, hsum]
  simp only [List.map_cons, List.map_nil, List.sum_cons, List.sum_nil]
  have h1 : ((1 : ℚ)/4) / (1/2) = 1/2 := by norm_num
  have h0 : ((0 : ℚ)) / (1/2) = 0 := by norm_num
  rw [h1, h0]
  rw [show xlogZero (((1 : ℚ)/2 : ℚ) : ℝ) = (2⁻¹ : ℝ) * Real.log (2⁻¹ : ℝ) by
    rw [xlogZero, if_neg (by norm_num)]
    push_cast
    norm_num]
  rw [show xlogZero (((0 : ℚ) : ℚ) : ℝ) = 0 by
    rw [xlogZero, if_pos (by norm_num)]]
  rw [Real.log_inv]
  ring

/-- Witness for C3 (amended) at concrete inputs. -/
theorem c3_amended_witness :
    calculate_entropy [F.q 0] = RE.nan
    ∧ reNanSum (RE.nan :: [RE.r 1]) = reNanSum [RE.r 1]
    ∧ calculate_entropy [F.q 1] = RE.r (specEntropy ([F.q 1].map F.toQ)) :=
  ⟨c3_amended.1 [F.q 0] (List.mem_singleton.mpr rfl),
   c3_amended.2.1 RE.nan [RE.r 1] rfl,
   c3_amended.2.2 [F.q 1] (by
     intro v hv
     rw [List.mem_singleton.mp hv]
     exact ⟨1, rfl, one_pos⟩)⟩

/-- C1 (amended): for every cached span, the entropy table's 'forward' row
carries as prior the Shannon entropy of the TARGET marginal (inflow summed by
target) and the 'backward' row that of the SOURCE marginal (outflow summed by
source) — pd.concat([tgt_entropy, src_entropy], keys=['forward','backward'])
pairs them this way round. -/
theorem c1_amended (c : List ((ℚ × ℚ) × FlowTable)) (p : (ℚ × ℚ) × FlowTable)
    (hp : p ∈ c) :
    ({ direction := "forward", t0 := p.1.1, t1 := p.1.2,
       expected := expected_flow_entropy p.2 true,
       prior := calculate_entropy (tgtSizes p.2) } : EntropyRow) ∈ entropyTable c
    ∧ ({ direction := "backward", t0 := p.1.1, t1 := p.1.2,
         expected := expected_flow_entropy p.2 false,
         prior := calculate_entropy (srcSizes p.2) } : EntropyRow) ∈ entropyTable c := by
  constructor
  · unfold entropyTable
    exact List.mem_append_left _ (List.mem_map_of_mem _ hp)
  · unfold entropyTable
    exact List.mem_append_right _ (List.mem_map_of_mem _ hp)

/-- Witness for C1 (amended) at the concrete cached span. -/
theorem c1_amended_witness :
    ({ direction := "forward", t0 := 0, t1 := 1,
       expected := expected_flow_entropy tblC true,
       prior := calculate_entropy (tgtSizes tblC) } : EntropyRow) ∈ entropyTable cacheC
    ∧ ({ direction := "backward", t0 := 0, t1 := 1,
         expected := expected_flow_entropy tblC false,
         prior := calculate_entropy (srcSizes tblC) } : EntropyRow) ∈ entropyTable cacheC :=
  c1_amended cacheC ((0, 1), tblC) (List.mem_singleton.mpr rfl)

/-- C1: on the concrete pipeline run cached under (0, 1), the source
marginal is (1, 0) — its _calculate_entropy is NaN — while the entropy
metric reports under 'forward' a finite prior, namely the entropy of the
target marginal (1/2, 1/2): the 'forward' prior is NOT the source-marginal
entropy. -/
theorem c1_counterexample :
    (calculate_flows sankeyC 0 1).map (fun p => (p.1, p.2.flow_dfs))
      = .ok (tblC, some cacheC)
    ∧ ((entropyTable cacheC).headD defaultEntropyRow).direction = "forward"
    ∧ ((entropyTable cacheC).headD defaultEntropyRow).prior
        = calculate_entropy (tgtSizes tblC)
    ∧ ((entropyTable cacheC).headD defaultEntropyRow).prior
        ≠ calculate_entropy (srcSizes tblC) := by
  refine ⟨by with_unfolding_all rfl, rfl, rfl, ?_⟩
  intro h
  have h2 := congrArg RE.isNan h
  rw [show ((entropyTable cacheC).headD defaultEntropyRow).prior
      = calculate_entropy (tgtSizes tblC) from rfl] at h2
  rw [show (calculate_entropy (tgtSizes tblC)).isNan = false by
    with_unfolding_all rfl] at h2
  rw [show (calculate_entropy (srcSizes tblC)).isNan = true by
    with_unfolding_all rfl] at h2
  exact Bool.noConfusion h2
